import Mathlib

/-!
Verification of the OpenCue UE worker pool and one-shot runner.

This file gives a shallow embedding of the state and operations of the
worker-pool service found in `src/ue_agent/models.py`,
`src/ue_agent/worker_pool.py`, `src/ue_worker_service.py` and of the
checksum / progress-reporter logic in `src/ue_agent/run_one_shot_plan.py`,
and proves properties of the embedded operations.

Conventions of the embedding:
- Python dicts become association lists `List (String, value)` in insertion
  order; dict assignment is `insertA` (replace in place or append), in-place
  mutation of a value is `updateA`.
- `datetime.utcnow()` / `time.monotonic()` / `time.time()` values become an
  `Int` (respectively a rational) clock passed explicitly to each operation.
- Python floats (progress percentages, reporter time deltas) become rationals.
- Process side effects (subprocess spawn, `kill_tree`, psutil queries) are not
  state of the queue; pid liveness is an oracle function in `ReconcileEnv`.
-/

namespace OpenCueUE

/-- Lookup in an association list: first entry with the given key
(Python dict lookup; keys are unique in every state the service builds). -/
def lookupA {α : Type} : List (String × α) → String → Option α
  | [], _ => none
  | (k, v) :: rest, key => if k = key then some v else lookupA rest key

/-- Update the entry with the given key in place, if present
(Python in-place mutation of the object stored in a dict). -/
def updateA {α : Type} : List (String × α) → String → (α → α) → List (String × α)
  | [], _, _ => []
  | (k, v) :: rest, key, f =>
    if k = key then (k, f v) :: rest else (k, v) :: updateA rest key f

/-- Dict assignment `d[key] = v`: replace the existing entry in place, or
append a new one (Python dicts preserve insertion order). -/
def insertA {α : Type} : List (String × α) → String → α → List (String × α)
  | [], key, v => [(key, v)]
  | (k, w) :: rest, key, v =>
    if k = key then (key, v) :: rest else (k, w) :: insertA rest key v

/-- Task lifecycle status (`models.TaskStatus`). -/
inductive TaskStatus where
  | PENDING
  | ASSIGNED
  | RUNNING
  | COMPLETED
  | FAILED
  | CANCELED
deriving DecidableEq

/-- Worker process status (`models.WorkerStatus`). -/
inductive WorkerStatus where
  | STARTING
  | IDLE
  | BUSY
  | STOPPING
  | DEAD
deriving DecidableEq

/-- A render task (`models.RenderTask`). Timestamps are an integer clock,
`progress_percent` is a rational. -/
structure RenderTask where
  task_id : String
  job_id : String
  level_sequence : String
  map_path : String := ""
  movie_quality : Int := 1
  movie_format : String := "mp4"
  extra_params : List (String × String) := []
  status : TaskStatus := TaskStatus.PENDING
  assigned_worker_id : Option String := none
  progress_percent : ℚ := 0
  progress_eta_seconds : Int := -1
  created_at : Int
  assigned_at : Option Int := none
  started_at : Option Int := none
  completed_at : Option Int := none
  success : Bool := false
  error_message : Option String := none
  video_directory : Option String := none
deriving DecidableEq

/-- `RenderTask.create`: a fresh task. The uuid4 generation is I/O, so the
generated id is a parameter; `created_at` defaults to the current clock. -/
def RenderTask.create (task_id job_id level_sequence : String) (map_path : String)
    (movie_quality : Int) (movie_format : String)
    (extra_params : List (String × String)) (now : Int) : RenderTask :=
  { task_id := task_id
    job_id := job_id
    level_sequence := level_sequence
    map_path := map_path
    movie_quality := movie_quality
    movie_format := movie_format
    extra_params := extra_params
    created_at := now }

/-- A UE worker process record (`models.Worker`). -/
structure Worker where
  worker_id : String
  status : WorkerStatus := WorkerStatus.STARTING
  process_id : Option Int := none
  host : String := "localhost"
  current_task_id : Option String := none
  last_heartbeat : Int
  heartbeat_count : Nat := 0
  created_at : Int
  started_at : Option Int := none
  stopped_at : Option Int := none
  tasks_completed : Nat := 0
  tasks_failed : Nat := 0
deriving DecidableEq

/-- `Worker.create`: both heartbeat and creation timestamps default to now. -/
def Worker.create (worker_id : String) (now : Int) : Worker :=
  { worker_id := worker_id, last_heartbeat := now, created_at := now }

/-- `Worker.update_heartbeat`. -/
def Worker.updateHeartbeat (w : Worker) (now : Int) : Worker :=
  { w with last_heartbeat := now, heartbeat_count := w.heartbeat_count + 1 }

/-- The in-memory queue (`models.TaskQueue`): task and worker maps. -/
structure TaskQueue where
  tasks : List (String × RenderTask) := []
  workers : List (String × Worker) := []
deriving DecidableEq

/-- The empty queue a fresh pool starts with. -/
def emptyQueue : TaskQueue := {}

/-- `TaskQueue.add_task`. -/
def addTask (q : TaskQueue) (task : RenderTask) : TaskQueue :=
  { q with tasks := insertA q.tasks task.task_id task }

/-- `TaskQueue.get_task`. -/
def getTask (q : TaskQueue) (task_id : String) : Option RenderTask :=
  lookupA q.tasks task_id

/-- The fold that selects the earliest-created task: keeps the first
occurrence of the minimum, exactly what the stable `pending.sort` by
`created_at` followed by `pending[0]` computes in `get_pending_task`. -/
def pickOlder (acc : Option RenderTask) (t : RenderTask) : Option RenderTask :=
  match acc with
  | none => some t
  | some b => if t.created_at < b.created_at then some t else some b

/-- `TaskQueue.get_pending_task`: the oldest PENDING task (stable sort by
`created_at`, oldest first, then the head). -/
def getPendingTask (tasks : List (String × RenderTask)) : Option RenderTask :=
  ((tasks.map Prod.snd).filter
      (fun t => decide (t.status = TaskStatus.PENDING))).foldl pickOlder none

/-- `TaskQueue.assign_task_to_worker`: pending task + known worker →
task ASSIGNED, worker BUSY. Returns the updated queue and the Python
boolean result. -/
def assignTaskToWorker (q : TaskQueue) (task_id worker_id : String) (now : Int) :
    TaskQueue × Bool :=
  match lookupA q.tasks task_id, lookupA q.workers worker_id with
  | some task, some _ =>
    if task.status ≠ TaskStatus.PENDING then (q, false)
    else
      ({ tasks := updateA q.tasks task_id (fun t =>
            { t with status := TaskStatus.ASSIGNED
                     assigned_worker_id := some worker_id
                     assigned_at := some now })
         workers := updateA q.workers worker_id (fun w =>
            { w with current_task_id := some task_id
                     status := WorkerStatus.BUSY }) }, true)
  | _, _ => (q, false)

/-- `TaskQueue.complete_task`: unconditionally moves the task to
COMPLETED/FAILED (no terminal-state check in the source) and frees the
assigned worker if it is registered. -/
def completeTask (q : TaskQueue) (task_id : String) (success : Bool)
    (video_directory error_message : Option String) (now : Int) :
    TaskQueue × Bool :=
  match lookupA q.tasks task_id with
  | none => (q, false)
  | some task =>
    let tasks1 := updateA q.tasks task_id (fun t =>
      { t with status := if success then TaskStatus.COMPLETED else TaskStatus.FAILED
               success := success
               completed_at := some now
               video_directory := video_directory
               error_message := error_message })
    let workers1 :=
      match task.assigned_worker_id with
      | some wid => updateA q.workers wid (fun w =>
          { w with current_task_id := none
                   status := WorkerStatus.IDLE
                   tasks_completed := if success then w.tasks_completed + 1 else w.tasks_completed
                   tasks_failed := if success then w.tasks_failed else w.tasks_failed + 1 })
      | none => q.workers
    ({ tasks := tasks1, workers := workers1 }, true)

/-- `TaskQueue.cancel_task`: only PENDING or ASSIGNED tasks can be canceled;
frees the assigned worker if any. -/
def cancelTask (q : TaskQueue) (task_id : String) (now : Int) : TaskQueue × Bool :=
  match lookupA q.tasks task_id with
  | none => (q, false)
  | some task =>
    if task.status = TaskStatus.PENDING ∨ task.status = TaskStatus.ASSIGNED then
      ({ tasks := updateA q.tasks task_id (fun t =>
            { t with status := TaskStatus.CANCELED, completed_at := some now })
         workers :=
          match task.assigned_worker_id with
          | some wid => updateA q.workers wid (fun w =>
              { w with current_task_id := none, status := WorkerStatus.IDLE })
          | none => q.workers }, true)
    else (q, false)

/-- `TaskQueue.register_worker`. -/
def registerWorker (q : TaskQueue) (w : Worker) : TaskQueue :=
  { q with workers := insertA q.workers w.worker_id w }

/-- `TaskQueue.get_worker`. -/
def getWorker (q : TaskQueue) (worker_id : String) : Option Worker :=
  lookupA q.workers worker_id

/-! ## Pool operations (`worker_pool.UEWorkerPool`) -/

/-- The `worker.update_heartbeat()` step at the top of the lease path. -/
def leaseHeartbeatState (q : TaskQueue) (worker_id : String) (now : Int) :
    TaskQueue :=
  { q with workers := updateA q.workers worker_id (fun w => w.updateHeartbeat now) }

/-- `UEWorkerPool.try_lease_task`: unknown workers are rejected without any
state change (no auto-registration on the lease path); known workers get a
heartbeat refresh; only IDLE workers receive the oldest pending task.
Returns the id of the leased task, if any. -/
def tryLeaseTask (q : TaskQueue) (worker_id : String) (now : Int) :
    TaskQueue × Option String :=
  match lookupA q.workers worker_id with
  | none => (q, none)
  | some worker =>
    let q1 := leaseHeartbeatState q worker_id now
    if worker.status ≠ WorkerStatus.IDLE then (q1, none)
    else
      match getPendingTask q1.tasks with
      | none => (q1, none)
      | some task =>
        let r := assignTaskToWorker q1 task.task_id worker_id now
        if r.2 then (r.1, some task.task_id) else (r.1, none)

/-- The per-worker effect of `UEWorkerPool.update_worker_heartbeat`: refresh
the heartbeat and apply the optional busy flag (IDLE↔BUSY only). -/
def heartbeatStep (busy : Option Bool) (now : Int) (w : Worker) : Worker :=
  let w1 := w.updateHeartbeat now
  match busy with
  | none => w1
  | some b =>
    if w.status = WorkerStatus.IDLE ∨ w.status = WorkerStatus.BUSY then
      if b = true ∧ w.status = WorkerStatus.IDLE then
        { w1 with status := WorkerStatus.BUSY }
      else if b = false ∧ w.status = WorkerStatus.BUSY then
        { w1 with status := WorkerStatus.IDLE, current_task_id := none }
      else w1
    else w1

/-- `UEWorkerPool.update_worker_heartbeat`. The HTTP endpoint passes the
request `status` string straight into the `busy` parameter; Python reads it
by truthiness, see `heartbeatRequestBusy`. -/
def updateWorkerHeartbeat (q : TaskQueue) (worker_id : String)
    (busy : Option Bool) (now : Int) : TaskQueue × Bool :=
  match lookupA q.workers worker_id with
  | none => (q, false)
  | some _ =>
    ({ q with workers := updateA q.workers worker_id (heartbeatStep busy now) }, true)

/-- Truthiness coercion applied by `worker_heartbeat` in
`ue_worker_service.py`: the optional `status` string of the heartbeat body is
read as a boolean (`None` stays absent, the empty string is falsy, any other
string is truthy). -/
def heartbeatRequestBusy (status : Option String) : Option Bool :=
  status.map (fun s => s ≠ "")

/-- `UEWorkerPool.mark_worker_ready`: STARTING → IDLE, idempotent on IDLE,
auto-registers unknown ids as IDLE workers (externally launched UE), rejected
in any other state. -/
def markWorkerReady (q : TaskQueue) (worker_id host : String) (now : Int) :
    TaskQueue × Bool :=
  match lookupA q.workers worker_id with
  | none =>
    let w := { Worker.create worker_id now with
                 host := host, status := WorkerStatus.IDLE }
    ({ q with workers := insertA q.workers worker_id w }, true)
  | some worker =>
    if worker.status = WorkerStatus.STARTING then
      ({ q with workers := updateA q.workers worker_id (fun w =>
          Worker.updateHeartbeat { w with status := WorkerStatus.IDLE } now) }, true)
    else if worker.status = WorkerStatus.IDLE then
      ({ q with workers := updateA q.workers worker_id (fun w =>
          w.updateHeartbeat now) }, true)
    else (q, false)

/-- `UEWorkerPool.complete_task` (the `done` endpoint): requires a known
worker and a task whose `assigned_worker_id` matches the caller, then
delegates to `TaskQueue.complete_task`. -/
def poolCompleteTask (q : TaskQueue) (worker_id task_id : String) (success : Bool)
    (video_directory error_message : Option String) (now : Int) :
    TaskQueue × Bool :=
  match lookupA q.workers worker_id with
  | none => (q, false)
  | some _ =>
    match lookupA q.tasks task_id with
    | none => (q, false)
    | some task =>
      if task.assigned_worker_id ≠ some worker_id then (q, false)
      else completeTask q task_id success video_directory error_message now

/-- The queue-visible effect of a successful `UEWorkerPool.spawn_worker`:
register a fresh `Worker.create` record, then set its pid, start time and
STARTING status (the subprocess launch itself is I/O). -/
def spawnWorkerRecord (worker_id host : String) (pid now : Int) : Worker :=
  { Worker.create worker_id now with
      host := host
      process_id := some pid
      started_at := some now
      status := WorkerStatus.STARTING }

/-- Registration step of `spawn_worker`. -/
def spawnRegisterWorker (q : TaskQueue) (worker_id host : String) (pid now : Int) :
    TaskQueue :=
  { q with workers := insertA q.workers worker_id (spawnWorkerRecord worker_id host pid now) }

/-- The queue-visible effect of `UEWorkerPool.kill_worker` on a known worker:
it passes through STOPPING and ends DEAD with `stopped_at` set; the process
tree kill is I/O. `current_task_id` is not touched by the source. -/
def killWorker (q : TaskQueue) (worker_id : String) (now : Int) : TaskQueue × Bool :=
  match lookupA q.workers worker_id with
  | none => (q, false)
  | some _ =>
    ({ q with workers := updateA q.workers worker_id (fun w =>
        { w with status := WorkerStatus.DEAD, stopped_at := some now }) }, true)

/-- `WORKER_STARTUP_GRACE_SEC` (300.0). -/
def WORKER_STARTUP_GRACE_SEC : Int := 300

/-- `WORKER_HEARTBEAT_TIMEOUT_SEC` (60.0). -/
def WORKER_HEARTBEAT_TIMEOUT_SEC : Int := 60

/-- `WORKER_STARTUP_TIMEOUT_SEC` (300.0). -/
def WORKER_STARTUP_TIMEOUT_SEC : Int := 300

/-- Environment of one `_reconcile` pass: the wall clock, the psutil
liveness oracle `is_process_running`, and the `_spawn_times` map. -/
structure ReconcileEnv where
  now : Int
  isRunning : Int → Bool
  spawnTimes : List (String × Int)

/-- `age_since_spawn`: `now - spawn_time` when a positive spawn time is
recorded, `float("inf")` (modelled as `none`) otherwise. -/
def ageSinceSpawn (env : ReconcileEnv) (worker_id : String) : Option Int :=
  let st := (lookupA env.spawnTimes worker_id).getD 0
  if st > 0 then some (env.now - st) else none

/-- `age_since_spawn >= bound`, where `none` is infinity. -/
def ageGE (a : Option Int) (bound : Int) : Bool :=
  match a with
  | none => true
  | some x => decide (x ≥ bound)

/-- `age_since_spawn > bound`, where `none` is infinity. -/
def ageGT (a : Option Int) (bound : Int) : Bool :=
  match a with
  | none => true
  | some x => decide (x > bound)

/-- One worker of the `_reconcile` detection loop (worker_pool.py lines
309-358). Returns the updated worker and whether its id was appended to
`dead_ids`. Branches, in source order: dead pid; heartbeat timeout of an
IDLE/BUSY worker past the startup grace; startup timeout of a STARTING
worker; no recorded pid at all. `kill_tree` calls are process I/O. -/
def reconcileWorkerStep (env : ReconcileEnv) (worker_id : String) (w : Worker) :
    Worker × Bool :=
  if (match w.process_id with
      | some p => decide (p ≠ 0) && !(env.isRunning p)
      | none => false) then
    ({ w with process_id := none
              status := WorkerStatus.DEAD
              current_task_id := none }, true)
  else if (w.status = WorkerStatus.IDLE ∨ w.status = WorkerStatus.BUSY)
      ∧ ageGE (ageSinceSpawn env worker_id) WORKER_STARTUP_GRACE_SEC = true
      ∧ env.now - w.last_heartbeat > WORKER_HEARTBEAT_TIMEOUT_SEC then
    ({ w with process_id := none
              status := WorkerStatus.DEAD
              current_task_id := none }, true)
  else if w.status = WorkerStatus.STARTING
      ∧ ageGT (ageSinceSpawn env worker_id) WORKER_STARTUP_TIMEOUT_SEC = true then
    ({ w with process_id := none, status := WorkerStatus.DEAD }, true)
  else if w.process_id = none ∧ w.status ≠ WorkerStatus.DEAD then
    ({ w with status := WorkerStatus.DEAD }, true)
  else (w, false)

/-- The detection loop of `_reconcile`: every registered worker is passed
through `reconcileWorkerStep`; `dead_ids` collects, in iteration order, the
ids of workers that were marked dead in this pass. -/
def reconcileDetect (env : ReconcileEnv) (workers : List (String × Worker)) :
    List (String × Worker) × List String :=
  (workers.map (fun p => (p.1, (reconcileWorkerStep env p.1 p.2).1)),
   (workers.filter (fun p => (reconcileWorkerStep env p.1 p.2).2)).map Prod.fst)

/-- One iteration of the re-queue loop of `_reconcile` (lines 361-368): if
the (now dead) worker `wid` still has a bound task in ASSIGNED or RUNNING,
set it back to PENDING and null its `assigned_worker_id`. -/
def requeueOne (workers : List (String × Worker))
    (ts : List (String × RenderTask)) (wid : String) :
    List (String × RenderTask) :=
  match lookupA workers wid with
  | some w =>
    match w.current_task_id with
    | some tid =>
      match lookupA ts tid with
      | some t =>
        if t.status = TaskStatus.ASSIGNED ∨ t.status = TaskStatus.RUNNING then
          updateA ts tid (fun t0 =>
            { t0 with status := TaskStatus.PENDING, assigned_worker_id := none })
        else ts
      | none => ts
    | none => ts
  | none => ts

/-- The re-queue loop of `_reconcile`, over `dead_ids` in order. -/
def requeueFromDead (workers : List (String × Worker)) (deadIds : List String)
    (tasks : List (String × RenderTask)) : List (String × RenderTask) :=
  deadIds.foldl (requeueOne workers) tasks

/-- The state transformation of one `_reconcile` pass: detection followed by
the re-queue loop. The trailing respawn block (lines 376-398) launches
subprocesses and is modelled by separate `spawnRegisterWorker` steps; the
`_processes` / `_spawn_times` bookkeeping lives outside the queue state. -/
def reconcile (env : ReconcileEnv) (q : TaskQueue) : TaskQueue :=
  let d := reconcileDetect env q.workers
  { tasks := requeueFromDead d.1 d.2 q.tasks, workers := d.1 }

/-! ## One-shot runner: checksum gate (`run_one_shot_plan.py`) -/

/-- `_verify_sha256`, parameterized by the SHA-256 hex-digest function of
`hashlib` (whose output is lowercase hex). Empty expected checksum skips
verification; otherwise the lowered digest is compared with the lowered
expected string and a mismatch raises (modelled as `Except.error`). -/
def verifySha256 (sha256hexdigest : List Nat → String) (fileBytes : List Nat)
    (expected : String) : Except String Unit :=
  if expected = "" then Except.ok ()
  else
    let digest := (sha256hexdigest fileBytes).toLower
    if digest ≠ expected.toLower then
      Except.error "plan_sha256 mismatch"
    else Except.ok ()

/-- The checksum stage of `run_one_shot_plan` (lines 388-391), given that
the plan file exists: a raised mismatch is caught and the runner returns 1
before UE is ever launched; `none` means verification passed and the run
continues to plan parsing and the UE launch. -/
def checksumGate (sha256hexdigest : List Nat → String) (fileBytes : List Nat)
    (expected : String) : Option Int :=
  match verifySha256 sha256hexdigest fileBytes expected with
  | Except.error _ => some 1
  | Except.ok _ => none

/-! ## Progress reporter (`_CueFrameProgressReporter`) -/

/-- Reporter state: `_enabled`, `_last_stage`, `_last_percent` (initialized
to -1.0), `_last_update_ts` (initialized to 0.0). Percentages and monotonic
times are rationals. -/
structure ReporterState where
  enabled : Bool
  lastStage : String
  lastPercent : ℚ
  lastUpdateTs : ℚ
deriving DecidableEq

/-- The constructor state: activation succeeds only when a frame id is
available and the frame resolves (I/O), which is the `activated` flag. -/
def initReporter (activated : Bool) : ReporterState :=
  { enabled := activated, lastStage := "", lastPercent := -1, lastUpdateTs := 0 }

/-- `max(0.0, min(100.0, float(percent)))`. -/
def clampPercent (p : ℚ) : ℚ := max 0 (min 100 p)

/-- The suppression condition of `_CueFrameProgressReporter.report` (lines
97-102): same stage as the last emitted update, a previous emission exists
(`_last_percent >= 0.0`), percentage delta below 0.5 and less than 2.0
seconds since the last emitted update. -/
def shouldDrop (s : ReporterState) (stage : String) (normalized now : ℚ) : Bool :=
  decide (stage = s.lastStage ∧ s.lastPercent ≥ 0
    ∧ |normalized - s.lastPercent| < 1/2 ∧ now - s.lastUpdateTs < 2)

/-- `_CueFrameProgressReporter.report`: clamp, maybe suppress, otherwise push
(`pushOk` says whether `setFrameStateDisplayOverride` succeeded; a failure
latches the reporter off). Returns the new state and whether an update was
emitted. -/
def reportUpdate (s : ReporterState) (stage : String) (percent now : ℚ)
    (pushOk : Bool) : ReporterState × Bool :=
  if s.enabled = false then (s, false)
  else
    let normalized := clampPercent percent
    if shouldDrop s stage normalized now then (s, false)
    else if pushOk then
      ({ enabled := true, lastStage := stage, lastPercent := normalized,
         lastUpdateTs := now }, true)
    else ({ s with enabled := false }, false)

/-! ## Well-formedness of the queue state -/

/-- Every task entry is stored under its own id (how `add_task` stores it). -/
def KeyWFTasks (tasks : List (String × RenderTask)) : Prop :=
  ∀ p ∈ tasks, (p.2).task_id = p.1

/-- Every worker entry is stored under its own id (how `register_worker`
stores it). -/
def KeyWFWorkers (workers : List (String × Worker)) : Prop :=
  ∀ p ∈ workers, (p.2).worker_id = p.1

/-- Keys of an association list are distinct (Python dict keys). -/
def NodupKeys {α : Type} (l : List (String × α)) : Prop :=
  (l.map Prod.fst).Nodup

/-- Well-formed task map. -/
def TasksWF (tasks : List (String × RenderTask)) : Prop :=
  KeyWFTasks tasks ∧ NodupKeys tasks

/-- Well-formed worker map. -/
def WorkersWF (workers : List (String × Worker)) : Prop :=
  KeyWFWorkers workers ∧ NodupKeys workers

/-- A worker that is in STARTING, IDLE or STOPPING carries no bound task. -/
def NBW (w : Worker) : Prop :=
  (w.status = WorkerStatus.STARTING ∨ w.status = WorkerStatus.IDLE
    ∨ w.status = WorkerStatus.STOPPING) →
  w.current_task_id = none

/-- Workers that are not BUSY and not DEAD carry no bound task. -/
def NonBusyNoTask (workers : List (String × Worker)) : Prop :=
  ∀ p ∈ workers, NBW p.2

/-- If this worker is BUSY with a non-null bound task, that task exists,
its `assigned_worker_id` is the worker and its status is ASSIGNED or
RUNNING. -/
def BLW (tasks : List (String × RenderTask)) (w : Worker) : Prop :=
  w.status = WorkerStatus.BUSY →
    ∀ tid, w.current_task_id = some tid →
      ∃ t, lookupA tasks tid = some t
        ∧ t.assigned_worker_id = some w.worker_id
        ∧ (t.status = TaskStatus.ASSIGNED ∨ t.status = TaskStatus.RUNNING)

/-- Every BUSY worker with a non-null bound task points at a task whose
`assigned_worker_id` is the worker and whose status is ASSIGNED or RUNNING. -/
def BusyLinkage (q : TaskQueue) : Prop :=
  ∀ p ∈ q.workers, BLW q.tasks p.2

/-- The inductive well-formedness invariant of the pool state. -/
def QueueWF (q : TaskQueue) : Prop :=
  TasksWF q.tasks ∧ WorkersWF q.workers ∧ NonBusyNoTask q.workers ∧ BusyLinkage q

instance (l : List (String × RenderTask)) : Decidable (KeyWFTasks l) :=
  inferInstanceAs (Decidable (∀ p ∈ l, (p.2).task_id = p.1))

instance (l : List (String × Worker)) : Decidable (KeyWFWorkers l) :=
  inferInstanceAs (Decidable (∀ p ∈ l, (p.2).worker_id = p.1))

instance {α : Type} (l : List (String × α)) : Decidable (NodupKeys l) :=
  inferInstanceAs (Decidable ((l.map Prod.fst).Nodup))

instance (l : List (String × RenderTask)) : Decidable (TasksWF l) :=
  inferInstanceAs (Decidable (KeyWFTasks l ∧ NodupKeys l))

instance (l : List (String × Worker)) : Decidable (WorkersWF l) :=
  inferInstanceAs (Decidable (KeyWFWorkers l ∧ NodupKeys l))

instance (w : Worker) : Decidable (NBW w) :=
  inferInstanceAs (Decidable (_ → _))

instance (l : List (String × Worker)) : Decidable (NonBusyNoTask l) :=
  inferInstanceAs (Decidable (∀ p ∈ l, NBW p.2))

/-! ## Operations of the service, as one step type -/

/-- One state-mutating operation of the pool, with the clock and all I/O
inputs made explicit. These are the operations reachable through the HTTP
surface and the reconcile loop. -/
inductive PoolOp where
  | addTaskOp (task_id job_id level_sequence map_path : String)
      (movie_quality : Int) (movie_format : String)
      (extra_params : List (String × String)) (now : Int)
  | spawnOp (worker_id host : String) (pid now : Int)
  | readyOp (worker_id host : String) (now : Int)
  | leaseOp (worker_id : String) (now : Int)
  | doneOp (worker_id task_id : String) (success : Bool)
      (video_directory error_message : Option String) (now : Int)
  | heartbeatOp (worker_id : String) (busy : Option Bool) (now : Int)
  | cancelOp (task_id : String) (now : Int)
  | killOp (worker_id : String) (now : Int)
  | reconcileOp (env : ReconcileEnv)

/-- Apply one operation to the queue state. -/
def applyOp (q : TaskQueue) : PoolOp → TaskQueue
  | PoolOp.addTaskOp tid jid ls mp mq mf ep now =>
      addTask q (RenderTask.create tid jid ls mp mq mf ep now)
  | PoolOp.spawnOp wid host pid now => spawnRegisterWorker q wid host pid now
  | PoolOp.readyOp wid host now => (markWorkerReady q wid host now).1
  | PoolOp.leaseOp wid now => (tryLeaseTask q wid now).1
  | PoolOp.doneOp wid tid s v e now => (poolCompleteTask q wid tid s v e now).1
  | PoolOp.heartbeatOp wid busy now => (updateWorkerHeartbeat q wid busy now).1
  | PoolOp.cancelOp tid now => (cancelTask q tid now).1
  | PoolOp.killOp wid now => (killWorker q wid now).1
  | PoolOp.reconcileOp env => reconcile env q

/-- Side condition of an operation: task creation uses a freshly generated
uuid4, so the new task id is not already a key of the task map. -/
def OpOK (q : TaskQueue) : PoolOp → Prop
  | PoolOp.addTaskOp tid _ _ _ _ _ _ _ => lookupA q.tasks tid = none
  | _ => True

/-- States reachable from the empty pool through the modelled operations. -/
inductive Reachable : TaskQueue → Prop where
  | init : Reachable emptyQueue
  | step (q : TaskQueue) (op : PoolOp) :
      Reachable q → OpOK q op → Reachable (applyOp q op)

/-! ## Stated conclusions of the behavioural properties -/

/-- The HTTP status code of `POST /tasks/{id}/cancel` in
`ue_worker_service.py`: 200 on success, `HTTPException(400)` otherwise. -/
def cancelEndpointCode (q : TaskQueue) (task_id : String) (now : Int) : Nat :=
  if (cancelTask q task_id now).2 then 200 else 400

/-- Behaviour of the heartbeat busy flag on a registered worker `w`. -/
def C3Concl (q : TaskQueue) (wid : String) (now : Int) (w : Worker) : Prop :=
  (w.status = WorkerStatus.IDLE →
    lookupA (updateWorkerHeartbeat q wid (some true) now).1.workers wid
      = some { w.updateHeartbeat now with status := WorkerStatus.BUSY })
  ∧ (w.status = WorkerStatus.BUSY →
    lookupA (updateWorkerHeartbeat q wid (some false) now).1.workers wid
      = some { w.updateHeartbeat now with
                 status := WorkerStatus.IDLE, current_task_id := none })
  ∧ (w.status = WorkerStatus.IDLE →
    lookupA (updateWorkerHeartbeat q wid (some false) now).1.workers wid
      = some (w.updateHeartbeat now))

/-- Behaviour of the lease path: rejection of unknown workers, the exact
success condition, and the atomic PENDING→ASSIGNED / IDLE→BUSY transition. -/
def C5Concl (q : TaskQueue) (wid : String) (now : Int) : Prop :=
  (lookupA q.workers wid = none → tryLeaseTask q wid now = (q, none))
  ∧ ((tryLeaseTask q wid now).2.isSome = true ↔
      (∃ w, lookupA q.workers wid = some w ∧ w.status = WorkerStatus.IDLE)
        ∧ ∃ p ∈ q.tasks, (p.2).status = TaskStatus.PENDING)
  ∧ (∀ tid, (tryLeaseTask q wid now).2 = some tid →
      ∃ t w, lookupA q.tasks tid = some t ∧ t.status = TaskStatus.PENDING
        ∧ lookupA q.workers wid = some w ∧ w.status = WorkerStatus.IDLE
        ∧ lookupA (tryLeaseTask q wid now).1.tasks tid
            = some { t with status := TaskStatus.ASSIGNED
                            assigned_worker_id := some wid
                            assigned_at := some now }
        ∧ lookupA (tryLeaseTask q wid now).1.workers wid
            = some { w.updateHeartbeat now with
                       current_task_id := some tid
                       status := WorkerStatus.BUSY })

/-- The leased task is a PENDING task of minimal creation time. -/
def C6Concl (q : TaskQueue) (tid : String) : Prop :=
  ∃ t, lookupA q.tasks tid = some t ∧ t.status = TaskStatus.PENDING
    ∧ ∀ p ∈ q.tasks, (p.2).status = TaskStatus.PENDING →
        t.created_at ≤ (p.2).created_at

/-- Behaviour of task cancellation, including the HTTP 400 contract. -/
def C7Concl (q : TaskQueue) (tid : String) (now : Int) : Prop :=
  ((cancelTask q tid now).2 = true ↔
    ∃ t, lookupA q.tasks tid = some t
      ∧ (t.status = TaskStatus.PENDING ∨ t.status = TaskStatus.ASSIGNED))
  ∧ (∀ t, lookupA q.tasks tid = some t →
      (t.status = TaskStatus.PENDING ∨ t.status = TaskStatus.ASSIGNED) →
      lookupA (cancelTask q tid now).1.tasks tid
        = some { t with status := TaskStatus.CANCELED, completed_at := some now }
      ∧ (∀ wid, t.assigned_worker_id = some wid →
          lookupA (cancelTask q tid now).1.workers wid
            = (lookupA q.workers wid).map (fun w =>
                { w with current_task_id := none, status := WorkerStatus.IDLE }))
      ∧ (t.assigned_worker_id = none →
          (cancelTask q tid now).1.workers = q.workers))
  ∧ ((cancelTask q tid now).2 = false → (cancelTask q tid now).1 = q)
  ∧ (cancelEndpointCode q tid now = 400 ↔ (cancelTask q tid now).2 = false)

/-- Behaviour of the checksum gate of the one-shot runner. -/
def C8Concl (hash : List Nat → String) (bytes : List Nat) (expected : String) :
    Prop :=
  (expected = "" → checksumGate hash bytes expected = none)
  ∧ (expected ≠ "" →
      ((checksumGate hash bytes expected = some 1 ↔
          (hash bytes).toLower ≠ expected.toLower)
        ∧ (checksumGate hash bytes expected = none ↔
          (hash bytes).toLower = expected.toLower)))

/-- Behaviour of the progress reporter on an enabled state (clamping,
the exact suppression condition, and the first-update guarantee). -/
def C9Concl (s : ReporterState) (stage : String) (percent now : ℚ) : Prop :=
  (0 ≤ clampPercent percent ∧ clampPercent percent ≤ 100)
  ∧ ((reportUpdate s stage percent now true).2 = true →
      (reportUpdate s stage percent now true).1.lastPercent = clampPercent percent)
  ∧ (0 ≤ s.lastPercent →
      ((reportUpdate s stage percent now true).2 = false ↔
        stage = s.lastStage ∧ |clampPercent percent - s.lastPercent| < 1/2
          ∧ now - s.lastUpdateTs < 2))
  ∧ (s.lastPercent < 0 → (reportUpdate s stage percent now true).2 = true)

/-- A single reconcile pass leaves the worker registered and DEAD. -/
def C10Concl (env : ReconcileEnv) (q : TaskQueue) (wid : String) : Prop :=
  ∃ w, lookupA (reconcile env q).workers wid = some w
    ∧ w.status = WorkerStatus.DEAD

/-! ## Concrete states used by the witnesses and counterexamples -/

/-- A task in ASSIGNED, bound to worker `w0`. -/
def c1Task : RenderTask :=
  { task_id := "t0", job_id := "job1", level_sequence := "/Game/Seq.Seq"
    created_at := 0, status := TaskStatus.ASSIGNED
    assigned_worker_id := some "w0", assigned_at := some 10 }

/-- A BUSY worker holding `t0`, whose recorded UE pid 4242 has died. -/
def c1Worker : Worker :=
  { worker_id := "w0", status := WorkerStatus.BUSY, process_id := some 4242
    host := "127.0.0.1", current_task_id := some "t0", last_heartbeat := 20
    heartbeat_count := 3, created_at := 0, started_at := some 0 }

/-- Queue state in which worker `w0` died while holding `t0`. -/
def c1Queue : TaskQueue :=
  { tasks := [("t0", c1Task)], workers := [("w0", c1Worker)] }

/-- Reconcile environment: pid 4242 is no longer running. -/
def c1Env : ReconcileEnv :=
  { now := 30, isRunning := fun _ => false, spawnTimes := [("w0", 5)] }

/-- A task already COMPLETED successfully, `assigned_worker_id` intact. -/
def c2Task : RenderTask :=
  { task_id := "t1", job_id := "job1", level_sequence := "/Game/Seq.Seq"
    created_at := 0, status := TaskStatus.COMPLETED
    assigned_worker_id := some "w1", success := true, completed_at := some 50
    video_directory := some "/out/v" }

/-- The worker that completed `t1`, back to IDLE. -/
def c2Worker : Worker :=
  { worker_id := "w1", status := WorkerStatus.IDLE, last_heartbeat := 50
    created_at := 0, tasks_completed := 1 }

/-- Queue state with a terminal task. -/
def c2Queue : TaskQueue :=
  { tasks := [("t1", c2Task)], workers := [("w1", c2Worker)] }

/-- Step 1 of the C4 counterexample: an external worker auto-registers IDLE
through the ready endpoint. -/
def c4Step1 : TaskQueue :=
  applyOp emptyQueue (PoolOp.readyOp "ext-w" "10.0.0.1" 0)

/-- Step 2: the worker heartbeats with the busy flag set, promoting it to
BUSY with no bound task. -/
def c4Step2 : TaskQueue :=
  applyOp c4Step1 (PoolOp.heartbeatOp "ext-w" (some true) 5)

/-- Witness run for the amended invariant: ready, create task, lease. -/
def c4wQ1 : TaskQueue :=
  applyOp emptyQueue (PoolOp.readyOp "wA" "10.0.0.1" 0)

/-- Witness run, after task creation. -/
def c4wQ2 : TaskQueue :=
  applyOp c4wQ1 (PoolOp.addTaskOp "tA" "job1" "/Game/Seq.Seq" "" 1 "mp4" [] 1)

/-- Witness run, after the lease. -/
def c4wQ3 : TaskQueue :=
  applyOp c4wQ2 (PoolOp.leaseOp "wA" 2)

/-- A registered IDLE worker. -/
def wIdle : Worker :=
  { worker_id := "w", status := WorkerStatus.IDLE, last_heartbeat := 0
    created_at := 0 }

/-- Queue with a single IDLE worker. -/
def qC3 : TaskQueue := { tasks := [], workers := [("w", wIdle)] }

/-- A pending task created at time 3. -/
def tPend : RenderTask :=
  { task_id := "t", job_id := "j", level_sequence := "ls", created_at := 3 }

/-- A younger pending task created at time 5. -/
def tPend2 : RenderTask :=
  { task_id := "t2", job_id := "j", level_sequence := "ls", created_at := 5 }

/-- Queue with two pending tasks and an IDLE worker. -/
def qC5 : TaskQueue :=
  { tasks := [("t", tPend), ("t2", tPend2)], workers := [("w", wIdle)] }

/-- An ASSIGNED task bound to worker `wb`. -/
def tAsg : RenderTask :=
  { task_id := "tc", job_id := "j", level_sequence := "ls", created_at := 0
    status := TaskStatus.ASSIGNED, assigned_worker_id := some "wb" }

/-- The BUSY worker holding `tc`. -/
def wBusy : Worker :=
  { worker_id := "wb", status := WorkerStatus.BUSY
    current_task_id := some "tc", last_heartbeat := 0, created_at := 0 }

/-- Queue for the cancel witness. -/
def qC7 : TaskQueue := { tasks := [("tc", tAsg)], workers := [("wb", wBusy)] }

/-- A reporter state that has already emitted Rendering 50.0 at t=10. -/
def sRep : ReporterState :=
  { enabled := true, lastStage := "Rendering", lastPercent := 50
    lastUpdateTs := 10 }

/-- A fixed stand-in for the SHA-256 hex digest function. -/
def demoHash : List Nat → String := fun _ => "abc123"

/-- A registered worker with no recorded pid (externally launched). -/
def wNoPid : Worker :=
  { worker_id := "wx", status := WorkerStatus.IDLE, process_id := none
    last_heartbeat := 999, created_at := 0 }

/-- Queue for the no-pid reconcile witness. -/
def qC10 : TaskQueue := { tasks := [], workers := [("wx", wNoPid)] }

/-- Reconcile environment in which every pid is alive. -/
def envC10 : ReconcileEnv :=
  { now := 1000, isRunning := fun _ => true, spawnTimes := [] }

/-! ## Association-list lemmas -/

theorem lookupA_updateA_self {α : Type} (l : List (String × α)) (k : String)
    (f : α → α) : lookupA (updateA l k f) k = (lookupA l k).map f := by
  induction l with
  | nil => rfl
  | cons hd rest ih =>
    obtain ⟨k0, v0⟩ := hd
    by_cases h : k0 = k
    · subst h
      simp [updateA, lookupA]
    · simp [updateA, lookupA, h, ih]

theorem lookupA_updateA_ne {α : Type} (l : List (String × α)) (k k' : String)
    (f : α → α) (h : k' ≠ k) :
    lookupA (updateA l k f) k' = lookupA l k' := by
  induction l with
  | nil => rfl
  | cons hd rest ih =>
    obtain ⟨k0, v0⟩ := hd
    by_cases h0 : k0 = k
    · subst h0
      have : k0 ≠ k' := fun hc => h (hc ▸ rfl)
      simp [updateA, lookupA, this]
    · simp [updateA, lookupA, h0, ih]

theorem lookupA_insertA_self {α : Type} (l : List (String × α)) (k : String)
    (v : α) : lookupA (insertA l k v) k = some v := by
  induction l with
  | nil => simp [insertA, lookupA]
  | cons hd rest ih =>
    obtain ⟨k0, v0⟩ := hd
    by_cases h : k0 = k
    · subst h
      simp [insertA, lookupA]
    · simp [insertA, lookupA, h, ih]

theorem lookupA_insertA_ne {α : Type} (l : List (String × α)) (k k' : String)
    (v : α) (h : k' ≠ k) :
    lookupA (insertA l k v) k' = lookupA l k' := by
  have hkk : ¬ k = k' := fun hc => h hc.symm
  induction l with
  | nil =>
    simp [insertA, lookupA, hkk]
  | cons hd rest ih =>
    obtain ⟨k0, v0⟩ := hd
    by_cases h0 : k0 = k
    · subst h0
      simp [insertA, lookupA, hkk]
    · simp [insertA, lookupA, h0, ih]

theorem mem_updateA {α : Type} {k : String} {f : α → α} {p : String × α} :
    ∀ {l : List (String × α)}, p ∈ updateA l k f →
      p ∈ l ∨ ∃ v, (k, v) ∈ l ∧ p = (k, f v) := by
  intro l
  induction l with
  | nil => intro hp; cases hp
  | cons hd rest ih =>
    intro hp
    obtain ⟨k0, v0⟩ := hd
    by_cases h : k0 = k
    · subst h
      simp only [updateA, if_pos rfl] at hp
      rcases List.mem_cons.mp hp with heq | hp
      · exact Or.inr ⟨v0, List.mem_cons_self _ _, heq⟩
      · exact Or.inl (List.mem_cons_of_mem _ hp)
    · simp only [updateA, if_neg h] at hp
      rcases List.mem_cons.mp hp with heq | hp
      · exact Or.inl (by rw [heq]; exact List.mem_cons_self _ _)
      · rcases ih hp with hmem | ⟨v, hv, he⟩
        · exact Or.inl (List.mem_cons_of_mem _ hmem)
        · exact Or.inr ⟨v, List.mem_cons_of_mem _ hv, he⟩

theorem keys_updateA {α : Type} (l : List (String × α)) (k : String)
    (f : α → α) : (updateA l k f).map Prod.fst = l.map Prod.fst := by
  induction l with
  | nil => rfl
  | cons hd rest ih =>
    obtain ⟨k0, v0⟩ := hd
    by_cases h : k0 = k
    · subst h
      simp [updateA]
    · simp [updateA, h, ih]

theorem mem_insertA {α : Type} {k : String} {v : α} {p : String × α} :
    ∀ {l : List (String × α)}, p ∈ insertA l k v → p = (k, v) ∨ p ∈ l := by
  intro l
  induction l with
  | nil => intro hp; simpa [insertA] using hp
  | cons hd rest ih =>
    intro hp
    obtain ⟨k0, v0⟩ := hd
    by_cases hk : k0 = k
    · subst hk
      simp only [insertA, if_pos rfl] at hp
      rcases List.mem_cons.mp hp with heq | hp
      · exact Or.inl heq
      · exact Or.inr (List.mem_cons_of_mem _ hp)
    · simp only [insertA, if_neg hk] at hp
      rcases List.mem_cons.mp hp with heq | hp
      · exact Or.inr (by rw [heq]; exact List.mem_cons_self _ _)
      · rcases ih hp with heq | hmem
        · exact Or.inl heq
        · exact Or.inr (List.mem_cons_of_mem _ hmem)

theorem mem_keys_insertA {α : Type} {k : String} {v : α} {x : String} :
    ∀ {l : List (String × α)}, x ∈ (insertA l k v).map Prod.fst →
      x = k ∨ x ∈ l.map Prod.fst := by
  intro l hx
  obtain ⟨p, hp, hpx⟩ := List.mem_map.mp hx
  rcases mem_insertA hp with heq | hmem
  · left
    rw [← hpx, heq]
  · right
    rw [← hpx]
    exact List.mem_map_of_mem Prod.fst hmem

theorem nodupKeys_updateA {α : Type} {l : List (String × α)} {k : String}
    {f : α → α} (h : NodupKeys l) : NodupKeys (updateA l k f) := by
  unfold NodupKeys at h ⊢
  rw [keys_updateA]
  exact h

theorem nodupKeys_insertA {α : Type} {k : String} {v : α} :
    ∀ {l : List (String × α)}, NodupKeys l → NodupKeys (insertA l k v) := by
  intro l
  induction l with
  | nil => intro _; simp [insertA, NodupKeys]
  | cons hd rest ih =>
    intro h
    obtain ⟨k0, v0⟩ := hd
    have h1 : k0 ∉ rest.map Prod.fst := by
      unfold NodupKeys at h
      simp only [List.map_cons, List.nodup_cons] at h
      exact h.1
    have h2 : NodupKeys rest := by
      unfold NodupKeys at h
      simp only [List.map_cons, List.nodup_cons] at h
      exact h.2
    by_cases hk : k0 = k
    · subst hk
      have heq : insertA ((k0, v0) :: rest) k0 v = (k0, v) :: rest := by
        simp [insertA]
      unfold NodupKeys
      rw [heq]
      simp only [List.map_cons, List.nodup_cons]
      exact ⟨h1, h2⟩
    · have heq : insertA ((k0, v0) :: rest) k v = (k0, v0) :: insertA rest k v := by
        simp [insertA, hk]
      unfold NodupKeys
      rw [heq]
      simp only [List.map_cons, List.nodup_cons]
      refine ⟨fun hc => ?_, ih h2⟩
      rcases mem_keys_insertA hc with heq2 | hmem
      · exact hk heq2
      · exact h1 hmem

theorem lookupA_eq_of_mem {α : Type} {k : String} {v : α} :
    ∀ {l : List (String × α)}, NodupKeys l → (k, v) ∈ l →
      lookupA l k = some v := by
  intro l
  induction l with
  | nil => intro _ h; cases h
  | cons hd rest ih =>
    intro hnd h
    obtain ⟨k0, v0⟩ := hd
    have h1 : k0 ∉ rest.map Prod.fst := by
      unfold NodupKeys at hnd
      simp only [List.map_cons, List.nodup_cons] at hnd
      exact hnd.1
    have h2 : NodupKeys rest := by
      unfold NodupKeys at hnd
      simp only [List.map_cons, List.nodup_cons] at hnd
      exact hnd.2
    rcases List.mem_cons.mp h with heq | hmem
    · injection heq with ha hb
      subst ha
      subst hb
      simp [lookupA]
    · have hk : ¬ k0 = k := by
        intro hc
        subst hc
        exact h1 (by simpa using List.mem_map_of_mem Prod.fst hmem)
      simp only [lookupA, if_neg hk]
      exact ih h2 hmem

theorem mem_of_lookupA {α : Type} {k : String} {v : α} :
    ∀ {l : List (String × α)}, lookupA l k = some v → (k, v) ∈ l := by
  intro l
  induction l with
  | nil => intro h; cases h
  | cons hd rest ih =>
    intro h
    obtain ⟨k0, v0⟩ := hd
    by_cases hk : k0 = k
    · subst hk
      have : lookupA ((k0, v0) :: rest) k0 = some v0 := by simp [lookupA]
      rw [this] at h
      injection h with h1
      subst h1
      exact List.mem_cons_self _ _
    · have : lookupA ((k0, v0) :: rest) k = lookupA rest k := by
        simp [lookupA, hk]
      rw [this] at h
      exact List.mem_cons_of_mem _ (ih h)

theorem not_mem_of_lookupA_none {α : Type} {k : String} {v : α} :
    ∀ {l : List (String × α)}, lookupA l k = none → (k, v) ∉ l := by
  intro l
  induction l with
  | nil => intro _ hc; cases hc
  | cons hd rest ih =>
    intro h hc
    obtain ⟨k0, v0⟩ := hd
    by_cases hk : k0 = k
    · subst hk
      simp [lookupA] at h
    · have : lookupA ((k0, v0) :: rest) k = lookupA rest k := by
        simp [lookupA, hk]
      rw [this] at h
      rcases List.mem_cons.mp hc with heq | hmem
      · injection heq with h1 _
        exact hk h1.symm
      · exact ih h hmem

theorem mem_updateA_nodup {α : Type} {l : List (String × α)} {k : String}
    {f : α → α} {p : String × α} (hnd : NodupKeys l) (hp : p ∈ updateA l k f) :
    (p ∈ l ∧ p.1 ≠ k) ∨ ∃ v, lookupA l k = some v ∧ p = (k, f v) := by
  rcases mem_updateA hp with hmem | ⟨v, hv, he⟩
  · by_cases hk : p.1 = k
    · right
      subst hk
      have hl : lookupA l p.1 = some p.2 := lookupA_eq_of_mem hnd (by exact hmem)
      refine ⟨p.2, hl, ?_⟩
      have h1 : lookupA (updateA l p.1 f) p.1 = some (f p.2) := by
        rw [lookupA_updateA_self, hl]
        rfl
      have h2 : lookupA (updateA l p.1 f) p.1 = some p.2 :=
        lookupA_eq_of_mem (nodupKeys_updateA hnd) (by exact hp)
      rw [h1] at h2
      injection h2 with h3
      calc p = (p.1, p.2) := rfl
        _ = (p.1, f p.2) := by rw [h3]
    · exact Or.inl ⟨hmem, hk⟩
  · exact Or.inr ⟨v, lookupA_eq_of_mem hnd hv, he⟩

/-! ## Oldest-pending-task lemmas -/

theorem pickOlder_none (t : RenderTask) : pickOlder none t = some t := rfl

theorem pickOlder_some (b t : RenderTask) :
    pickOlder (some b) t =
      if t.created_at < b.created_at then some t else some b := rfl

theorem pickOlder_foldl_mem :
    ∀ (l : List RenderTask) (acc : Option RenderTask) (t : RenderTask),
      l.foldl pickOlder acc = some t → t ∈ l ∨ acc = some t := by
  intro l
  induction l with
  | nil =>
    intro acc t h
    exact Or.inr h
  | cons x rest ih =>
    intro acc t h
    rw [List.foldl_cons] at h
    rcases ih (pickOlder acc x) t h with hmem | hacc
    · exact Or.inl (List.mem_cons_of_mem _ hmem)
    · cases acc with
      | none =>
        rw [pickOlder_none] at hacc
        injection hacc with h1
        subst h1
        exact Or.inl (List.mem_cons_self _ _)
      | some b =>
        rw [pickOlder_some] at hacc
        by_cases hlt : x.created_at < b.created_at
        · rw [if_pos hlt] at hacc
          injection hacc with h1
          subst h1
          exact Or.inl (List.mem_cons_self _ _)
        · rw [if_neg hlt] at hacc
          exact Or.inr hacc

theorem pickOlder_foldl_min :
    ∀ (l : List RenderTask) (acc : Option RenderTask) (t : RenderTask),
      l.foldl pickOlder acc = some t →
      (∀ t' ∈ l, t.created_at ≤ t'.created_at)
        ∧ (∀ b, acc = some b → t.created_at ≤ b.created_at) := by
  intro l
  induction l with
  | nil =>
    intro acc t h
    rw [List.foldl_nil] at h
    refine ⟨fun t' ht' => absurd ht' (List.not_mem_nil t'), fun b hb => ?_⟩
    rw [h] at hb
    injection hb with h1
    rw [h1]
  | cons x rest ih =>
    intro acc t h
    rw [List.foldl_cons] at h
    obtain ⟨hrest, hacc'⟩ := ih (pickOlder acc x) t h
    have hx : t.created_at ≤ x.created_at := by
      cases acc with
      | none => exact hacc' x (pickOlder_none x)
      | some b =>
        by_cases hlt : x.created_at < b.created_at
        · exact hacc' x (by rw [pickOlder_some, if_pos hlt])
        · have hb := hacc' b (by rw [pickOlder_some, if_neg hlt])
          have hbx : b.created_at ≤ x.created_at := le_of_not_lt hlt
          exact le_trans hb hbx
    refine ⟨fun t' ht' => ?_, fun b hb => ?_⟩
    · rcases List.mem_cons.mp ht' with heq | hmem
      · rw [heq]
        exact hx
      · exact hrest t' hmem
    · subst hb
      by_cases hlt : x.created_at < b.created_at
      · have hxx := hacc' x (by rw [pickOlder_some, if_pos hlt])
        exact le_trans hxx (le_of_lt hlt)
      · exact hacc' b (by rw [pickOlder_some, if_neg hlt])

theorem pickOlder_foldl_isSome :
    ∀ (l : List RenderTask) (acc : Option RenderTask),
      l ≠ [] ∨ acc.isSome → (l.foldl pickOlder acc).isSome := by
  intro l
  induction l with
  | nil =>
    intro acc h
    rcases h with h | h
    · exact absurd rfl h
    · exact h
  | cons x rest ih =>
    intro acc _
    rw [List.foldl_cons]
    apply ih
    right
    cases acc with
    | none =>
      rw [pickOlder_none]
      rfl
    | some b =>
      rw [pickOlder_some]
      by_cases hlt : x.created_at < b.created_at
      · rw [if_pos hlt]
        rfl
      · rw [if_neg hlt]
        rfl

theorem getPendingTask_inv {tasks : List (String × RenderTask)} {t : RenderTask}
    (h : getPendingTask tasks = some t) :
    (∃ k, (k, t) ∈ tasks) ∧ t.status = TaskStatus.PENDING
      ∧ ∀ p ∈ tasks, (p.2).status = TaskStatus.PENDING →
          t.created_at ≤ (p.2).created_at := by
  unfold getPendingTask at h
  have hmem := pickOlder_foldl_mem _ _ _ h
  have hmin := (pickOlder_foldl_min _ _ _ h).1
  rcases hmem with hmem | hnone
  · have hfil := List.mem_filter.mp hmem
    have hstat : t.status = TaskStatus.PENDING := of_decide_eq_true hfil.2
    obtain ⟨p, hp, hp2⟩ := List.mem_map.mp hfil.1
    refine ⟨⟨p.1, ?_⟩, hstat, ?_⟩
    · rw [← hp2]
      exact hp
    · intro p' hp' hstat'
      apply hmin
      exact List.mem_filter.mpr
        ⟨List.mem_map_of_mem Prod.snd hp', decide_eq_true hstat'⟩
  · cases hnone

theorem getPendingTask_isSome {tasks : List (String × RenderTask)}
    (h : ∃ p ∈ tasks, (p.2).status = TaskStatus.PENDING) :
    (getPendingTask tasks).isSome := by
  unfold getPendingTask
  apply pickOlder_foldl_isSome
  left
  obtain ⟨p, hp, hstat⟩ := h
  intro hc
  have : (p.2) ∈ (tasks.map Prod.snd).filter
      (fun t => decide (t.status = TaskStatus.PENDING)) :=
    List.mem_filter.mpr ⟨List.mem_map_of_mem Prod.snd hp, decide_eq_true hstat⟩
  rw [hc] at this
  cases this

/-! ## Lease-path lemmas -/

theorem leaseHeartbeatState_tasks (q : TaskQueue) (wid : String) (now : Int) :
    (leaseHeartbeatState q wid now).tasks = q.tasks := rfl

theorem leaseHeartbeatState_workers (q : TaskQueue) (wid : String) (now : Int) :
    (leaseHeartbeatState q wid now).workers
      = updateA q.workers wid (fun w => w.updateHeartbeat now) := rfl

theorem assignTaskToWorker_eq (q : TaskQueue) (tid wid : String) (now : Int)
    (task : RenderTask) (w : Worker)
    (ht : lookupA q.tasks tid = some task)
    (hstat : task.status = TaskStatus.PENDING)
    (hw : lookupA q.workers wid = some w) :
    assignTaskToWorker q tid wid now =
      ({ tasks := updateA q.tasks tid (fun t =>
            { t with status := TaskStatus.ASSIGNED
                     assigned_worker_id := some wid
                     assigned_at := some now })
         workers := updateA q.workers wid (fun w0 =>
            { w0 with current_task_id := some tid
                      status := WorkerStatus.BUSY }) }, true) := by
  unfold assignTaskToWorker
  rw [ht, hw]
  simp [hstat]

theorem tryLeaseTask_some_inv (q : TaskQueue) (wid : String) (now : Int)
    (tid : String) (h : (tryLeaseTask q wid now).2 = some tid) :
    ∃ w task, lookupA q.workers wid = some w
      ∧ w.status = WorkerStatus.IDLE
      ∧ getPendingTask q.tasks = some task ∧ tid = task.task_id := by
  cases hl : lookupA q.workers wid with
  | none => simp [tryLeaseTask, hl] at h
  | some w =>
    by_cases hw : w.status = WorkerStatus.IDLE
    · cases hp : getPendingTask q.tasks with
      | none =>
        simp [tryLeaseTask, hl, hw, leaseHeartbeatState_tasks, hp] at h
      | some task =>
        by_cases hr : (assignTaskToWorker (leaseHeartbeatState q wid now)
            task.task_id wid now).2 = true
        · refine ⟨w, task, rfl, hw, rfl, ?_⟩
          simp [tryLeaseTask, hl, hw, leaseHeartbeatState_tasks, hp, hr] at h
          exact h.symm
        · simp [tryLeaseTask, hl, hw, leaseHeartbeatState_tasks, hp, hr] at h
    · simp [tryLeaseTask, hl, hw] at h

theorem lookupA_from_getPendingTask {tasks : List (String × RenderTask)}
    {task : RenderTask} (hwf : TasksWF tasks)
    (hp : getPendingTask tasks = some task) :
    lookupA tasks task.task_id = some task := by
  obtain ⟨⟨k, hk⟩, _, _⟩ := getPendingTask_inv hp
  have hkey : task.task_id = k := hwf.1 (k, task) hk
  rw [hkey]
  exact lookupA_eq_of_mem hwf.2 hk

theorem tryLeaseTask_success_eq (q : TaskQueue) (wid : String) (now : Int)
    (w : Worker) (task : RenderTask) (hwf : TasksWF q.tasks)
    (hl : lookupA q.workers wid = some w) (hw : w.status = WorkerStatus.IDLE)
    (hp : getPendingTask q.tasks = some task) :
    tryLeaseTask q wid now =
      ({ tasks := updateA q.tasks task.task_id (fun t =>
            { t with status := TaskStatus.ASSIGNED
                     assigned_worker_id := some wid
                     assigned_at := some now })
         workers := updateA (updateA q.workers wid
              (fun w0 => w0.updateHeartbeat now)) wid (fun w0 =>
            { w0 with current_task_id := some task.task_id
                      status := WorkerStatus.BUSY }) },
       some task.task_id) := by
  have ht : lookupA q.tasks task.task_id = some task :=
    lookupA_from_getPendingTask hwf hp
  have hstat := (getPendingTask_inv hp).2.1
  have hq1w : lookupA (leaseHeartbeatState q wid now).workers wid
      = some (w.updateHeartbeat now) := by
    rw [leaseHeartbeatState_workers, lookupA_updateA_self, hl]
    rfl
  have hassign := assignTaskToWorker_eq (leaseHeartbeatState q wid now)
    task.task_id wid now task (w.updateHeartbeat now) ht hstat hq1w
  simp [tryLeaseTask, hl, hw, leaseHeartbeatState_tasks, hp, hassign,
    leaseHeartbeatState_workers]

/-! ## Reconcile lemmas -/

theorem lookupA_reconcileDetect (env : ReconcileEnv) :
    ∀ (ws : List (String × Worker)) (wid : String),
      lookupA (reconcileDetect env ws).1 wid
        = (lookupA ws wid).map (fun w => (reconcileWorkerStep env wid w).1) := by
  intro ws
  induction ws with
  | nil => intro wid; rfl
  | cons hd rest ih =>
    intro wid
    obtain ⟨k0, w0⟩ := hd
    by_cases hk : k0 = wid
    · subst hk
      simp [reconcileDetect, lookupA]
    · have h1 : lookupA (reconcileDetect env ((k0, w0) :: rest)).1 wid
          = lookupA (reconcileDetect env rest).1 wid := by
        simp [reconcileDetect, lookupA, hk]
      have h2 : lookupA ((k0, w0) :: rest) wid = lookupA rest wid := by
        simp [lookupA, hk]
      rw [h1, h2]
      exact ih wid

theorem reconcileWorkerStep_dead_of_no_pid (env : ReconcileEnv) (wid : String)
    (w : Worker) (hpid : w.process_id = none)
    (hnd : w.status ≠ WorkerStatus.DEAD) :
    ((reconcileWorkerStep env wid w).1).status = WorkerStatus.DEAD := by
  simp only [reconcileWorkerStep, hpid]
  split_ifs <;> simp_all

/-! ## Claim theorems -/

/-- C1: (code bug) worker `w0` holds task `t0` in ASSIGNED and its UE pid
has died. One reconcile pass marks the worker DEAD, but — contrary to the
claim and to the intent of the re-queue loop, which reads
`worker.current_task_id` after the dead-pid branch has already nulled it —
the task stays ASSIGNED with its `assigned_worker_id` intact. -/
theorem c1_dead_pid_keeps_task_assigned :
    (lookupA (reconcile c1Env c1Queue).workers "w0").map Worker.status
        = some WorkerStatus.DEAD
    ∧ (lookupA (reconcile c1Env c1Queue).workers "w0").map Worker.current_task_id
        = some none
    ∧ (lookupA (reconcile c1Env c1Queue).tasks "t0").map RenderTask.status
        = some TaskStatus.ASSIGNED
    ∧ (lookupA (reconcile c1Env c1Queue).tasks "t0").map RenderTask.assigned_worker_id
        = some (some "w0") := by
  decide

/-- C2: (code bug) `t1` is COMPLETED with `success = true`, yet a later
`done` call from its recorded worker with `success = false` is accepted and
flips the terminal task to FAILED, because `TaskQueue.complete_task` never
checks for a terminal status and completion leaves `assigned_worker_id`
set. -/
theorem c2_done_flips_completed_task :
    (poolCompleteTask c2Queue "w1" "t1" false none (some "boom") 60).2 = true
    ∧ (lookupA (poolCompleteTask c2Queue "w1" "t1" false none
          (some "boom") 60).1.tasks "t1").map RenderTask.status
        = some TaskStatus.FAILED
    ∧ (lookupA (poolCompleteTask c2Queue "w1" "t1" false none
          (some "boom") 60).1.tasks "t1").map RenderTask.success
        = some false := by
  decide

/-- C3: a heartbeat carrying the busy flag promotes an IDLE worker to BUSY;
a not-busy flag demotes a BUSY worker to IDLE and nulls its
`current_task_id`; a not-busy flag never promotes an IDLE worker. -/
theorem c3_heartbeat_busy_flag (q : TaskQueue) (wid : String) (now : Int)
    (w : Worker) (h : lookupA q.workers wid = some w) : C3Concl q wid now w := by
  unfold C3Concl
  refine ⟨?_, ?_, ?_⟩ <;> intro hw <;>
    simp [updateWorkerHeartbeat, h, lookupA_updateA_self, heartbeatStep, hw,
      Worker.updateHeartbeat]

/-- Witness for C3 at a concrete IDLE worker. -/
theorem c3_heartbeat_busy_flag_witness :
    lookupA qC3.workers "w" = some wIdle ∧ C3Concl qC3 "w" 7 wIdle :=
  ⟨by decide, c3_heartbeat_busy_flag qC3 "w" 7 wIdle (by decide)⟩

/-- C8: the checksum gate of the one-shot runner skips verification for an
empty expected checksum, and otherwise returns exit code 1 (before any UE
launch) exactly when the lowered digest differs from the lowered expected
string. -/
theorem c8_checksum_gate (hash : List Nat → String) (bytes : List Nat)
    (expected : String) : C8Concl hash bytes expected := by
  constructor
  · intro he
    simp [checksumGate, verifySha256, he]
  · intro he
    by_cases hd : (hash bytes).toLower = expected.toLower
    · constructor <;> simp [checksumGate, verifySha256, he, hd]
    · constructor <;> simp [checksumGate, verifySha256, he, hd]

/-- Witness for C8 at a concrete digest function and checksum. -/
theorem c8_checksum_gate_witness : C8Concl demoHash [1, 2] "ABC123" :=
  c8_checksum_gate demoHash [1, 2] "ABC123"

/-- C9: on an enabled reporter, the percentage is clamped to [0, 100]; with
a previous emission, an update is dropped exactly when the stage repeats,
the delta is below 0.5 and less than 2 seconds have elapsed; the first
update after activation is never dropped. -/
theorem c9_progress_reporter (s : ReporterState) (stage : String)
    (percent now : ℚ) (hen : s.enabled = true) : C9Concl s stage percent now := by
  unfold C9Concl
  refine ⟨⟨le_max_left _ _, max_le (by norm_num) (min_le_left _ _)⟩, ?_, ?_, ?_⟩
  · intro hemit
    by_cases hd : shouldDrop s stage (clampPercent percent) now = true
    · simp [reportUpdate, hen, hd] at hemit
    · simp [reportUpdate, hen, hd]
  · intro hge
    constructor
    · intro hfalse
      by_cases hd : shouldDrop s stage (clampPercent percent) now = true
      · have hprop := of_decide_eq_true hd
        exact ⟨hprop.1, hprop.2.2.1, hprop.2.2.2⟩
      · exfalso
        simp [reportUpdate, hen, hd] at hfalse
    · intro hc
      have hd : shouldDrop s stage (clampPercent percent) now = true :=
        decide_eq_true ⟨hc.1, hge, hc.2.1, hc.2.2⟩
      simp [reportUpdate, hen, hd]
  · intro hlt
    have hd : shouldDrop s stage (clampPercent percent) now = false := by
      apply decide_eq_false
      intro hc
      exact absurd hc.2.1 (not_le.mpr hlt)
    simp [reportUpdate, hen, hd]

/-- Witness for C9 at a concrete enabled reporter state. -/
theorem c9_progress_reporter_witness :
    sRep.enabled = true ∧ C9Concl sRep "Rendering" (251/5) 11 :=
  ⟨rfl, c9_progress_reporter sRep "Rendering" (251/5) 11 rfl⟩

/-- C10: every registered worker with no recorded pid whose status is not
already DEAD is marked DEAD by a single reconcile pass (externally
launched, ready-auto-registered workers included). -/
theorem c10_no_pid_marked_dead (env : ReconcileEnv) (q : TaskQueue)
    (wid : String) (w : Worker) (h : lookupA q.workers wid = some w)
    (hpid : w.process_id = none) (hnd : w.status ≠ WorkerStatus.DEAD) :
    C10Concl env q wid := by
  refine ⟨(reconcileWorkerStep env wid w).1, ?_,
    reconcileWorkerStep_dead_of_no_pid env wid w hpid hnd⟩
  show lookupA (reconcileDetect env q.workers).1 wid = _
  rw [lookupA_reconcileDetect, h]
  rfl

/-- Witness for C10 at a concrete auto-registered worker. -/
theorem c10_no_pid_marked_dead_witness :
    lookupA qC10.workers "wx" = some wNoPid ∧ wNoPid.process_id = none
    ∧ wNoPid.status ≠ WorkerStatus.DEAD ∧ C10Concl envC10 qC10 "wx" :=
  ⟨by decide, rfl, by decide,
    c10_no_pid_marked_dead envC10 qC10 "wx" wNoPid (by decide) rfl (by decide)⟩

/-- C5: a lease call assigns a task exactly when the caller is a registered
IDLE worker and a PENDING task exists; on success the task goes
PENDING→ASSIGNED and the worker IDLE→BUSY in the same step; an unregistered
worker id assigns nothing and registers nothing. -/
theorem c5_lease_atomicity (q : TaskQueue) (wid : String) (now : Int)
    (hwf : TasksWF q.tasks) : C5Concl q wid now := by
  unfold C5Concl
  refine ⟨?_, ?_, ?_⟩
  · intro h
    simp [tryLeaseTask, h]
  · constructor
    · intro hs
      obtain ⟨tid, htid⟩ := Option.isSome_iff_exists.mp hs
      obtain ⟨w, task, hl, hw, hp, _⟩ := tryLeaseTask_some_inv q wid now tid htid
      refine ⟨⟨w, hl, hw⟩, ?_⟩
      obtain ⟨⟨k, hk⟩, hstat, _⟩ := getPendingTask_inv hp
      exact ⟨(k, task), hk, hstat⟩
    · rintro ⟨⟨w, hl, hw⟩, hex⟩
      obtain ⟨task, hp⟩ := Option.isSome_iff_exists.mp (getPendingTask_isSome hex)
      rw [tryLeaseTask_success_eq q wid now w task hwf hl hw hp]
      rfl
  · intro tid h
    obtain ⟨w, task, hl, hw, hp, htid⟩ := tryLeaseTask_some_inv q wid now tid h
    subst htid
    have ht := lookupA_from_getPendingTask hwf hp
    refine ⟨task, w, ht, (getPendingTask_inv hp).2.1, hl, hw, ?_, ?_⟩
    · rw [tryLeaseTask_success_eq q wid now w task hwf hl hw hp]
      show lookupA (updateA q.tasks task.task_id _) task.task_id = _
      rw [lookupA_updateA_self, ht]
      rfl
    · rw [tryLeaseTask_success_eq q wid now w task hwf hl hw hp]
      show lookupA (updateA (updateA q.workers wid _) wid _) wid = _
      rw [lookupA_updateA_self, lookupA_updateA_self, hl]
      rfl

/-- Witness for C5 at a concrete queue with an IDLE worker and two pending
tasks. -/
theorem c5_lease_atomicity_witness : TasksWF qC5.tasks ∧ C5Concl qC5 "w" 4 :=
  ⟨by decide, c5_lease_atomicity qC5 "w" 4 (by decide)⟩

/-- C6: whenever a lease hands out a task, that task is PENDING in the
pre-state and its creation time is minimal among all PENDING tasks (FIFO by
`created_at`). -/
theorem c6_lease_fifo (q : TaskQueue) (wid : String) (now : Int) (tid : String)
    (hwf : TasksWF q.tasks) (h : (tryLeaseTask q wid now).2 = some tid) :
    C6Concl q tid := by
  obtain ⟨w, task, hl, hw, hp, htid⟩ := tryLeaseTask_some_inv q wid now tid h
  subst htid
  have ht := lookupA_from_getPendingTask hwf hp
  obtain ⟨_, hstat, hmin⟩ := getPendingTask_inv hp
  exact ⟨task, ht, hstat, hmin⟩

/-- Witness for C6: with tasks created at times 3 and 5, the lease picks the
older one. -/
theorem c6_lease_fifo_witness :
    TasksWF qC5.tasks ∧ (tryLeaseTask qC5 "w" 4).2 = some "t" ∧ C6Concl qC5 "t" :=
  ⟨by decide, by decide, c6_lease_fifo qC5 "w" 4 "t" (by decide) (by decide)⟩

/-- C7: cancel succeeds exactly on an existing PENDING or ASSIGNED task; on
success the task becomes CANCELED and the assigned worker, if any, returns
to IDLE with a nulled `current_task_id`; otherwise the HTTP layer returns
400 and the state is unchanged. -/
theorem c7_cancel_contract (q : TaskQueue) (tid : String) (now : Int) :
    C7Concl q tid now := by
  unfold C7Concl
  cases hl : lookupA q.tasks tid with
  | none =>
    refine ⟨?_, ?_, ?_, ?_⟩
    · constructor
      · intro hc
        simp [cancelTask, hl] at hc
      · rintro ⟨t, ht, -⟩
        cases ht
    · intro t ht
      cases ht
    · intro _
      simp [cancelTask, hl]
    · simp [cancelEndpointCode, cancelTask, hl]
  | some task =>
    by_cases hs : task.status = TaskStatus.PENDING ∨ task.status = TaskStatus.ASSIGNED
    · refine ⟨?_, ?_, ?_, ?_⟩
      · constructor
        · intro _
          exact ⟨task, rfl, hs⟩
        · intro _
          simp [cancelTask, hl, hs]
      · intro t ht hst
        injection ht with h1
        subst h1
        refine ⟨?_, ?_, ?_⟩
        · simp only [cancelTask, hl, if_pos hs]
          rw [lookupA_updateA_self, hl]
          rfl
        · intro wid hw
          simp only [cancelTask, hl, if_pos hs, hw]
          rw [lookupA_updateA_self]
        · intro hw
          simp only [cancelTask, hl, if_pos hs, hw]
      · intro hfalse
        simp [cancelTask, hl, hs] at hfalse
      · simp [cancelEndpointCode, cancelTask, hl, hs]
    · refine ⟨?_, ?_, ?_, ?_⟩
      · constructor
        · intro hc
          simp [cancelTask, hl, hs] at hc
        · rintro ⟨t, ht, hst⟩
          injection ht with h1
          subst h1
          exact absurd hst hs
      · intro t ht hst
        injection ht with h1
        subst h1
        exact absurd hst hs
      · intro _
        simp [cancelTask, hl, hs]
      · simp [cancelEndpointCode, cancelTask, hl, hs]

/-- Witness for C7 at a concrete ASSIGNED task with a BUSY worker. -/
theorem c7_cancel_contract_witness : C7Concl qC7 "tc" 9 :=
  c7_cancel_contract qC7 "tc" 9

/-- C4 counterexample: from the empty pool, a ready auto-registration
followed by a heartbeat with the busy flag yields a reachable state whose
only worker is BUSY with a null `current_task_id`, refuting the claim that
every BUSY worker has a non-null bound task. -/
theorem c4_busy_with_null_task_reachable :
    Reachable c4Step2
    ∧ (lookupA c4Step2.workers "ext-w").map Worker.status
        = some WorkerStatus.BUSY
    ∧ (lookupA c4Step2.workers "ext-w").map Worker.current_task_id
        = some none := by
  refine ⟨?_, by decide, by decide⟩
  exact Reachable.step c4Step1 (PoolOp.heartbeatOp "ext-w" (some true) 5)
    (Reachable.step emptyQueue (PoolOp.readyOp "ext-w" "10.0.0.1" 0)
      Reachable.init trivial)
    trivial

/-! ## Preservation of the well-formedness invariant -/

theorem updateA_updateA {α : Type} (k : String) (f g : α → α) :
    ∀ (l : List (String × α)),
      updateA (updateA l k f) k g = updateA l k (fun v => g (f v)) := by
  intro l
  induction l with
  | nil => rfl
  | cons hd rest ih =>
    obtain ⟨k0, v0⟩ := hd
    by_cases hk : k0 = k
    · subst hk
      simp [updateA]
    · simp [updateA, hk, ih]

theorem tasksWF_updateA {tasks : List (String × RenderTask)} {k : String}
    {f : RenderTask → RenderTask} (h : TasksWF tasks)
    (hid : ∀ t, (f t).task_id = t.task_id) : TasksWF (updateA tasks k f) := by
  constructor
  · intro p hp
    rcases mem_updateA hp with hmem | ⟨v, hv, he⟩
    · exact h.1 p hmem
    · rw [he]
      show (f v).task_id = k
      rw [hid v]
      exact h.1 (k, v) hv
  · exact nodupKeys_updateA h.2

theorem workersWF_updateA {workers : List (String × Worker)} {k : String}
    {f : Worker → Worker} (h : WorkersWF workers)
    (hid : ∀ w, (f w).worker_id = w.worker_id) :
    WorkersWF (updateA workers k f) := by
  constructor
  · intro p hp
    rcases mem_updateA hp with hmem | ⟨v, hv, he⟩
    · exact h.1 p hmem
    · rw [he]
      show (f v).worker_id = k
      rw [hid v]
      exact h.1 (k, v) hv
  · exact nodupKeys_updateA h.2

theorem mem_eq_of_lookup {α : Type} [DecidableEq α]
    {l : List (String × α)} (hnd : NodupKeys l) {p : String × α} {v : α}
    (hp : p ∈ l) (hl : lookupA l p.1 = some v) : p.2 = v := by
  have h2 : lookupA l p.1 = some p.2 := lookupA_eq_of_mem hnd (by exact hp)
  rw [h2] at hl
  injection hl

/-- Inserting a fresh worker record that satisfies both per-worker
invariants preserves the queue invariant (tasks untouched). -/
theorem queueWF_insertWorker (q : TaskQueue) (k : String) (w : Worker)
    (h : QueueWF q) (hid : w.worker_id = k) (hnb : NBW w)
    (hbl : BLW q.tasks w) :
    QueueWF { q with workers := insertA q.workers k w } := by
  obtain ⟨hT, hW, hNB, hBL⟩ := h
  refine ⟨hT, ⟨?_, nodupKeys_insertA hW.2⟩, ?_, ?_⟩
  · intro p hp
    rcases mem_insertA hp with heq | hmem
    · rw [heq]
      exact hid
    · exact hW.1 p hmem
  · intro p hp
    rcases mem_insertA hp with heq | hmem
    · rw [heq]
      exact hnb
    · exact hNB p hmem
  · intro p hp
    rcases mem_insertA hp with heq | hmem
    · rw [heq]
      exact hbl
    · exact hBL p hmem

/-- Updating one worker with an id-preserving function that preserves both
per-worker invariants of the looked-up record preserves the queue invariant
(tasks untouched). -/
theorem queueWF_updateWorker (q : TaskQueue) (k : String) (f : Worker → Worker)
    (h : QueueWF q) (hid : ∀ w, (f w).worker_id = w.worker_id)
    (hpres : ∀ w, lookupA q.workers k = some w → NBW w → BLW q.tasks w →
        NBW (f w) ∧ BLW q.tasks (f w)) :
    QueueWF { q with workers := updateA q.workers k f } := by
  obtain ⟨hT, hW, hNB, hBL⟩ := h
  refine ⟨hT, workersWF_updateA ⟨hW.1, hW.2⟩ hid, ?_, ?_⟩
  · intro p hp
    rcases mem_updateA_nodup hW.2 hp with ⟨hmem, _⟩ | ⟨v, hlv, he⟩
    · exact hNB p hmem
    · rw [he]
      have hvmem : (k, v) ∈ q.workers := mem_of_lookupA hlv
      exact (hpres v hlv (hNB (k, v) hvmem) (hBL (k, v) hvmem)).1
  · intro p hp
    rcases mem_updateA_nodup hW.2 hp with ⟨hmem, _⟩ | ⟨v, hlv, he⟩
    · exact hBL p hmem
    · rw [he]
      have hvmem : (k, v) ∈ q.workers := mem_of_lookupA hlv
      exact (hpres v hlv (hNB (k, v) hvmem) (hBL (k, v) hvmem)).2

theorem heartbeatStep_none (now : Int) (w : Worker) :
    heartbeatStep none now w = w.updateHeartbeat now := rfl

theorem heartbeatStep_some (b : Bool) (now : Int) (w : Worker) :
    heartbeatStep (some b) now w =
      if w.status = WorkerStatus.IDLE ∨ w.status = WorkerStatus.BUSY then
        if b = true ∧ w.status = WorkerStatus.IDLE then
          { w.updateHeartbeat now with status := WorkerStatus.BUSY }
        else if b = false ∧ w.status = WorkerStatus.BUSY then
          { w.updateHeartbeat now with
              status := WorkerStatus.IDLE, current_task_id := none }
        else w.updateHeartbeat now
      else w.updateHeartbeat now := rfl

/-- The heartbeat step preserves both per-worker invariants. -/
theorem heartbeatStep_pres (tasks : List (String × RenderTask))
    (busy : Option Bool) (now : Int) (w : Worker)
    (hnb : NBW w) (hbl : BLW tasks w) :
    NBW (heartbeatStep busy now w) ∧ BLW tasks (heartbeatStep busy now w) := by
  cases busy with
  | none =>
    rw [heartbeatStep_none]
    exact ⟨hnb, hbl⟩
  | some b =>
    rw [heartbeatStep_some]
    by_cases h1 : w.status = WorkerStatus.IDLE ∨ w.status = WorkerStatus.BUSY
    · rw [if_pos h1]
      by_cases h2 : b = true ∧ w.status = WorkerStatus.IDLE
      · rw [if_pos h2]
        constructor
        · intro hc
          rcases hc with hc | hc | hc <;> simp at hc
        · intro _ tid htid
          have hcur : w.current_task_id = none := hnb (Or.inr (Or.inl h2.2))
          have htid2 : w.current_task_id = some tid := htid
          rw [hcur] at htid2
          cases htid2
      · rw [if_neg h2]
        by_cases h3 : b = false ∧ w.status = WorkerStatus.BUSY
        · rw [if_pos h3]
          constructor
          · intro _
            rfl
          · intro hb
            simp at hb
        · rw [if_neg h3]
          exact ⟨hnb, hbl⟩
    · rw [if_neg h1]
      exact ⟨hnb, hbl⟩

theorem queueWF_addTask (q : TaskQueue) (task : RenderTask) (h : QueueWF q)
    (hfresh : lookupA q.tasks task.task_id = none) :
    QueueWF (addTask q task) := by
  obtain ⟨hT, hW, hNB, hBL⟩ := h
  refine ⟨⟨?_, nodupKeys_insertA hT.2⟩, hW, hNB, ?_⟩
  · intro p hp
    rcases mem_insertA hp with heq | hmem
    · rw [heq]
    · exact hT.1 p hmem
  · intro p hp hbusy tid htid
    obtain ⟨t, hlt, hass, hst⟩ := hBL p hp hbusy tid htid
    have hne : tid ≠ task.task_id := by
      intro hc
      rw [hc, hfresh] at hlt
      cases hlt
    refine ⟨t, ?_, hass, hst⟩
    show lookupA (insertA q.tasks task.task_id task) tid = some t
    rw [lookupA_insertA_ne _ _ _ _ hne]
    exact hlt

theorem queueWF_spawn (q : TaskQueue) (wid host : String) (pid now : Int)
    (h : QueueWF q) : QueueWF (spawnRegisterWorker q wid host pid now) := by
  refine queueWF_insertWorker q wid (spawnWorkerRecord wid host pid now) h
    rfl ?_ ?_
  · intro _
    rfl
  · intro hb
    simp [spawnWorkerRecord, Worker.create] at hb

theorem queueWF_ready (q : TaskQueue) (wid host : String) (now : Int)
    (h : QueueWF q) : QueueWF (markWorkerReady q wid host now).1 := by
  cases hl : lookupA q.workers wid with
  | none =>
    simp only [markWorkerReady, hl]
    refine queueWF_insertWorker q wid _ h rfl ?_ ?_
    · intro _
      rfl
    · intro hb
      simp [Worker.create] at hb
  | some w =>
    by_cases hs : w.status = WorkerStatus.STARTING
    · simp only [markWorkerReady, hl, if_pos hs]
      refine queueWF_updateWorker q wid _ h (fun w0 => rfl) ?_
      intro w0 hl0 hnb _
      have hw0 : w0 = w := by
        rw [hl] at hl0
        injection hl0 with hh
        exact hh.symm
      constructor
      · intro _
        show w0.current_task_id = none
        exact hnb (Or.inl (by rw [hw0]; exact hs))
      · intro hb
        simp [Worker.updateHeartbeat] at hb
    · by_cases hi : w.status = WorkerStatus.IDLE
      · simp only [markWorkerReady, hl, if_neg hs, if_pos hi]
        refine queueWF_updateWorker q wid _ h (fun w0 => rfl) ?_
        intro w0 _ hnb hbl
        exact ⟨hnb, hbl⟩
      · simp only [markWorkerReady, hl, if_neg hs, if_neg hi]
        exact h

theorem queueWF_heartbeat (q : TaskQueue) (wid : String) (busy : Option Bool)
    (now : Int) (h : QueueWF q) :
    QueueWF (updateWorkerHeartbeat q wid busy now).1 := by
  cases hl : lookupA q.workers wid with
  | none =>
    simp only [updateWorkerHeartbeat, hl]
    exact h
  | some w =>
    simp only [updateWorkerHeartbeat, hl]
    refine queueWF_updateWorker q wid _ h ?_ ?_
    · intro w0
      cases busy with
      | none => rfl
      | some b =>
        rw [heartbeatStep_some]
        split_ifs <;> rfl
    · intro w0 _ hnb hbl
      exact heartbeatStep_pres q.tasks busy now w0 hnb hbl

theorem queueWF_kill (q : TaskQueue) (wid : String) (now : Int)
    (h : QueueWF q) : QueueWF (killWorker q wid now).1 := by
  cases hl : lookupA q.workers wid with
  | none =>
    simp only [killWorker, hl]
    exact h
  | some w =>
    simp only [killWorker, hl]
    refine queueWF_updateWorker q wid _ h (fun w0 => rfl) ?_
    intro w0 _ _ _
    constructor
    · intro hc
      rcases hc with hc | hc | hc <;> simp at hc
    · intro hb
      simp at hb

theorem queueWF_done (q : TaskQueue) (wid tid : String) (success : Bool)
    (video err : Option String) (now : Int) (h : QueueWF q) :
    QueueWF (poolCompleteTask q wid tid success video err now).1 := by
  cases hlw : lookupA q.workers wid with
  | none =>
    simp only [poolCompleteTask, hlw]
    exact h
  | some w =>
    cases hlt : lookupA q.tasks tid with
    | none =>
      simp only [poolCompleteTask, hlw, hlt]
      exact h
    | some task =>
      by_cases hass : task.assigned_worker_id = some wid
      · have hcond : ¬(task.assigned_worker_id ≠ some wid) := fun hc => hc hass
        simp only [poolCompleteTask, hlw, hlt]
        rw [if_neg hcond]
        simp only [completeTask, hlt, hass]
        obtain ⟨hT, hW, hNB, hBL⟩ := h
        refine ⟨tasksWF_updateA hT (fun t => rfl),
          workersWF_updateA hW (fun v => rfl), ?_, ?_⟩
        · intro p hp2
          rcases mem_updateA_nodup hW.2 hp2 with ⟨hmem, _⟩ | ⟨v, _, he⟩
          · exact hNB p hmem
          · rw [he]
            intro _
            rfl
        · intro p hp2
          rcases mem_updateA_nodup hW.2 hp2 with ⟨hmem, hkne⟩ | ⟨v, _, he⟩
          · intro hbusy tid3 htid3
            obtain ⟨t3, hlt3, hass3, hst3⟩ := hBL p hmem hbusy tid3 htid3
            have hne : tid3 ≠ tid := by
              intro hc
              rw [hc, hlt] at hlt3
              injection hlt3 with he3
              rw [← he3] at hass3
              rw [hass] at hass3
              injection hass3 with he4
              exact hkne (by rw [← hW.1 p hmem, ← he4])
            refine ⟨t3, ?_, hass3, hst3⟩
            rw [lookupA_updateA_ne _ _ _ _ hne]
            exact hlt3
          · rw [he]
            intro hb
            simp at hb
      · simp only [poolCompleteTask, hlw, hlt, if_pos hass]
        exact h

theorem queueWF_cancel (q : TaskQueue) (tid : String) (now : Int)
    (h : QueueWF q) : QueueWF (cancelTask q tid now).1 := by
  cases hlt : lookupA q.tasks tid with
  | none =>
    simp only [cancelTask, hlt]
    exact h
  | some task =>
    by_cases hs : task.status = TaskStatus.PENDING
        ∨ task.status = TaskStatus.ASSIGNED
    · obtain ⟨hT, hW, hNB, hBL⟩ := h
      cases hass : task.assigned_worker_id with
      | none =>
        simp only [cancelTask, hlt, if_pos hs, hass]
        refine ⟨tasksWF_updateA hT (fun t => rfl), hW, hNB, ?_⟩
        intro p hp2 hbusy tid3 htid3
        obtain ⟨t3, hlt3, hass3, hst3⟩ := hBL p hp2 hbusy tid3 htid3
        have hne : tid3 ≠ tid := by
          intro hc
          rw [hc, hlt] at hlt3
          injection hlt3 with he3
          rw [← he3] at hass3
          rw [hass] at hass3
          cases hass3
        refine ⟨t3, ?_, hass3, hst3⟩
        rw [lookupA_updateA_ne _ _ _ _ hne]
        exact hlt3
      | some wid =>
        simp only [cancelTask, hlt, if_pos hs, hass]
        refine ⟨tasksWF_updateA hT (fun t => rfl),
          workersWF_updateA hW (fun v => rfl), ?_, ?_⟩
        · intro p hp2
          rcases mem_updateA_nodup hW.2 hp2 with ⟨hmem, _⟩ | ⟨v, _, he⟩
          · exact hNB p hmem
          · rw [he]
            intro _
            rfl
        · intro p hp2
          rcases mem_updateA_nodup hW.2 hp2 with ⟨hmem, hkne⟩ | ⟨v, _, he⟩
          · intro hbusy tid3 htid3
            obtain ⟨t3, hlt3, hass3, hst3⟩ := hBL p hmem hbusy tid3 htid3
            have hne : tid3 ≠ tid := by
              intro hc
              rw [hc, hlt] at hlt3
              injection hlt3 with he3
              rw [← he3] at hass3
              rw [hass] at hass3
              injection hass3 with he4
              exact hkne (by rw [← hW.1 p hmem, ← he4])
            refine ⟨t3, ?_, hass3, hst3⟩
            rw [lookupA_updateA_ne _ _ _ _ hne]
            exact hlt3
          · rw [he]
            intro hb
            simp at hb
    · simp only [cancelTask, hlt, if_neg hs]
      exact h

theorem queueWF_lease (q : TaskQueue) (wid : String) (now : Int)
    (h : QueueWF q) : QueueWF (tryLeaseTask q wid now).1 := by
  cases hl : lookupA q.workers wid with
  | none =>
    simp only [tryLeaseTask, hl]
    exact h
  | some w =>
    have hq1 : QueueWF (leaseHeartbeatState q wid now) := by
      refine queueWF_updateWorker q wid _ h (fun w0 => rfl) ?_
      intro w0 _ hnb hbl
      exact ⟨hnb, hbl⟩
    by_cases hw : w.status = WorkerStatus.IDLE
    · cases hp : getPendingTask q.tasks with
      | none =>
        simp only [tryLeaseTask, hl, if_neg (not_not_intro hw),
          leaseHeartbeatState_tasks, hp]
        exact hq1
      | some task =>
        have heq := congrArg Prod.fst (tryLeaseTask_success_eq q wid now w task
          h.1 hl hw hp)
        rw [heq]
        rw [show (updateA (updateA q.workers wid
              (fun w0 => w0.updateHeartbeat now)) wid (fun w0 =>
            { w0 with current_task_id := some task.task_id
                      status := WorkerStatus.BUSY }))
          = updateA q.workers wid (fun w0 =>
              { w0.updateHeartbeat now with
                  current_task_id := some task.task_id
                  status := WorkerStatus.BUSY }) from updateA_updateA wid _ _ q.workers]
        obtain ⟨hT, hW, hNB, hBL⟩ := h
        have ht : lookupA q.tasks task.task_id = some task :=
          lookupA_from_getPendingTask hT hp
        have htstat : task.status = TaskStatus.PENDING :=
          (getPendingTask_inv hp).2.1
        refine ⟨tasksWF_updateA hT (fun t => rfl),
          workersWF_updateA hW (fun v => rfl), ?_, ?_⟩
        · intro p hp2
          rcases mem_updateA_nodup hW.2 hp2 with ⟨hmem, _⟩ | ⟨v, _, he⟩
          · exact hNB p hmem
          · rw [he]
            intro hc
            rcases hc with hc | hc | hc <;> simp at hc
        · intro p hp2
          rcases mem_updateA_nodup hW.2 hp2 with ⟨hmem, _⟩ | ⟨v, hlv, he⟩
          · intro hbusy tid3 htid3
            obtain ⟨t3, hlt3, hass3, hst3⟩ := hBL p hmem hbusy tid3 htid3
            have hne : tid3 ≠ task.task_id := by
              intro hc
              rw [hc, ht] at hlt3
              injection hlt3 with he3
              rw [← he3] at hst3
              rw [htstat] at hst3
              rcases hst3 with hst3 | hst3 <;> cases hst3
            refine ⟨t3, ?_, hass3, hst3⟩
            rw [lookupA_updateA_ne _ _ _ _ hne]
            exact hlt3
          · rw [he]
            intro _ tid3 htid3
            have htid4 : some task.task_id = some tid3 := htid3
            injection htid4 with hid3
            subst hid3
            have hvmem := mem_of_lookupA hlv
            have hvid : v.worker_id = wid := hW.1 (wid, v) hvmem
            refine ⟨{ task with status := TaskStatus.ASSIGNED, assigned_worker_id := some wid, assigned_at := some now }, ?_, ?_, Or.inl rfl⟩
            · rw [lookupA_updateA_self, ht]
              rfl
            · show some wid = some v.worker_id
              rw [hvid]
    · have hw2 : w.status ≠ WorkerStatus.IDLE := hw
      simp only [tryLeaseTask, hl, if_pos hw2]
      exact hq1

/-! ## Reconcile preserves the invariant -/

theorem keys_reconcileDetect (env : ReconcileEnv) :
    ∀ (ws : List (String × Worker)),
      ((reconcileDetect env ws).1).map Prod.fst = ws.map Prod.fst := by
  intro ws
  induction ws with
  | nil => rfl
  | cons hd rest ih =>
    obtain ⟨k0, w0⟩ := hd
    simp only [reconcileDetect, List.map_cons] at ih ⊢
    rw [ih]

theorem mem_reconcileDetect {env : ReconcileEnv} {ws : List (String × Worker)}
    {p : String × Worker} (hp : p ∈ (reconcileDetect env ws).1) :
    ∃ w0, (p.1, w0) ∈ ws ∧ p.2 = (reconcileWorkerStep env p.1 w0).1 := by
  obtain ⟨p0, hp0, he⟩ := List.mem_map.mp hp
  refine ⟨p0.2, ?_, ?_⟩
  · rw [← he]
    exact hp0
  · rw [← he]

theorem mem_deadIds {env : ReconcileEnv} {ws : List (String × Worker)}
    {wid : String} (h : wid ∈ (reconcileDetect env ws).2) :
    ∃ w0, (wid, w0) ∈ ws ∧ (reconcileWorkerStep env wid w0).2 = true := by
  obtain ⟨p, hp, he⟩ := List.mem_map.mp h
  have hf := List.mem_filter.mp hp
  refine ⟨p.2, ?_, ?_⟩
  · rw [← he]
    exact hf.1
  · rw [← he]
    exact hf.2

theorem reconcileWorkerStep_worker_id (env : ReconcileEnv) (wid : String)
    (w : Worker) :
    ((reconcileWorkerStep env wid w).1).worker_id = w.worker_id := by
  unfold reconcileWorkerStep
  split_ifs <;> rfl

theorem reconcileWorkerStep_cases (env : ReconcileEnv) (wid : String)
    (w : Worker) :
    ((reconcileWorkerStep env wid w).1 = w ∧ (reconcileWorkerStep env wid w).2 = false)
    ∨ (((reconcileWorkerStep env wid w).1).status = WorkerStatus.DEAD
        ∧ (reconcileWorkerStep env wid w).2 = true) := by
  unfold reconcileWorkerStep
  split_ifs <;> simp

theorem reconcileWorkerStep_dead_current (env : ReconcileEnv) (wid : String)
    (w : Worker) (tid : String) (hnb : NBW w)
    (hc : ((reconcileWorkerStep env wid w).1).current_task_id = some tid)
    (hq : (reconcileWorkerStep env wid w).2 = true) :
    w.status = WorkerStatus.BUSY ∧ w.current_task_id = some tid := by
  unfold reconcileWorkerStep at hc hq
  split_ifs at hc hq with h1 h2 h3 h4
  · have hcur : w.current_task_id = none := hnb (Or.inl h3.1)
    have hc2 : w.current_task_id = some tid := hc
    rw [hcur] at hc2
    cases hc2
  · have hc2 : w.current_task_id = some tid := hc
    cases hst : w.status with
    | STARTING =>
      have := hnb (Or.inl hst)
      rw [this] at hc2
      cases hc2
    | IDLE =>
      have := hnb (Or.inr (Or.inl hst))
      rw [this] at hc2
      cases hc2
    | BUSY => exact ⟨rfl, hc2⟩
    | STOPPING =>
      have := hnb (Or.inr (Or.inr hst))
      rw [this] at hc2
      cases hc2
    | DEAD => exact absurd hst h4.2

theorem lookupA_requeueOne_of_safe (ws : List (String × Worker))
    (tasks : List (String × RenderTask)) (d key : String)
    (hsafe : ∀ w, lookupA ws d = some w → w.current_task_id ≠ some key) :
    lookupA (requeueOne ws tasks d) key = lookupA tasks key := by
  cases hw : lookupA ws d with
  | none => simp only [requeueOne, hw]
  | some w =>
    cases hc : w.current_task_id with
    | none => simp only [requeueOne, hw, hc]
    | some tid =>
      have hne : tid ≠ key := by
        intro hcc
        exact hsafe w hw (by rw [hc, hcc])
      cases ht : lookupA tasks tid with
      | none => simp only [requeueOne, hw, hc, ht]
      | some t =>
        by_cases hst : t.status = TaskStatus.ASSIGNED
            ∨ t.status = TaskStatus.RUNNING
        · simp only [requeueOne, hw, hc, ht, if_pos hst]
          exact lookupA_updateA_ne _ _ _ _ (fun hcc => hne hcc.symm)
        · simp only [requeueOne, hw, hc, ht, if_neg hst]

theorem lookupA_requeueFromDead_of_safe (ws : List (String × Worker)) :
    ∀ (ds : List String) (tasks : List (String × RenderTask)) (key : String),
      (∀ wid ∈ ds, ∀ w, lookupA ws wid = some w →
          w.current_task_id ≠ some key) →
      lookupA (requeueFromDead ws ds tasks) key = lookupA tasks key := by
  intro ds
  induction ds with
  | nil =>
    intro tasks key _
    rfl
  | cons d ds ih =>
    intro tasks key hsafe
    have hstep : requeueFromDead ws (d :: ds) tasks
        = requeueFromDead ws ds (requeueOne ws tasks d) := rfl
    rw [hstep]
    rw [ih (requeueOne ws tasks d) key
      (fun wid hwid w hw => hsafe wid (List.mem_cons_of_mem _ hwid) w hw)]
    exact lookupA_requeueOne_of_safe ws tasks d key
      (fun w hw => hsafe d (List.mem_cons_self _ _) w hw)

theorem tasksWF_requeueOne (ws : List (String × Worker))
    (tasks : List (String × RenderTask)) (d : String) (h : TasksWF tasks) :
    TasksWF (requeueOne ws tasks d) := by
  cases hw : lookupA ws d with
  | none =>
    simp only [requeueOne, hw]
    exact h
  | some w =>
    cases hc : w.current_task_id with
    | none =>
      simp only [requeueOne, hw, hc]
      exact h
    | some tid =>
      cases ht : lookupA tasks tid with
      | none =>
        simp only [requeueOne, hw, hc, ht]
        exact h
      | some t =>
        by_cases hst : t.status = TaskStatus.ASSIGNED
            ∨ t.status = TaskStatus.RUNNING
        · simp only [requeueOne, hw, hc, ht, if_pos hst]
          exact tasksWF_updateA h (fun t0 => rfl)
        · simp only [requeueOne, hw, hc, ht, if_neg hst]
          exact h

theorem tasksWF_requeueFromDead (ws : List (String × Worker)) :
    ∀ (ds : List String) (tasks : List (String × RenderTask)),
      TasksWF tasks → TasksWF (requeueFromDead ws ds tasks) := by
  intro ds
  induction ds with
  | nil =>
    intro tasks h
    exact h
  | cons d ds ih =>
    intro tasks h
    have hstep : requeueFromDead ws (d :: ds) tasks
        = requeueFromDead ws ds (requeueOne ws tasks d) := rfl
    rw [hstep]
    exact ih _ (tasksWF_requeueOne ws tasks d h)

theorem queueWF_reconcile (env : ReconcileEnv) (q : TaskQueue)
    (h : QueueWF q) : QueueWF (reconcile env q) := by
  obtain ⟨hT, hW, hNB, hBL⟩ := h
  show QueueWF
    { tasks := requeueFromDead (reconcileDetect env q.workers).1
        (reconcileDetect env q.workers).2 q.tasks
      workers := (reconcileDetect env q.workers).1 }
  refine ⟨?_, ⟨?_, ?_⟩, ?_, ?_⟩
  · exact tasksWF_requeueFromDead _ _ _ hT
  · intro p hp
    obtain ⟨w0, hmem, he⟩ := mem_reconcileDetect hp
    rw [he, reconcileWorkerStep_worker_id]
    exact hW.1 (p.1, w0) hmem
  · show NodupKeys ((reconcileDetect env q.workers).1)
    unfold NodupKeys
    rw [keys_reconcileDetect]
    exact hW.2
  · intro p hp
    obtain ⟨w0, hmem, he⟩ := mem_reconcileDetect hp
    rcases reconcileWorkerStep_cases env p.1 w0 with ⟨heq, _⟩ | ⟨hdead, _⟩
    · rw [he, heq]
      exact hNB (p.1, w0) hmem
    · rw [he]
      intro hc
      rcases hc with hc | hc | hc <;> (rw [hdead] at hc; cases hc)
  · intro p hp
    obtain ⟨w0, hmem, he⟩ := mem_reconcileDetect hp
    intro hbusy tid3 htid3
    rcases reconcileWorkerStep_cases env p.1 w0 with ⟨heq, _⟩ | ⟨hdead, _⟩
    · have hp2 : p.2 = w0 := by rw [he, heq]
      rw [hp2] at hbusy htid3
      obtain ⟨t3, hlt3, hass3, hst3⟩ := hBL (p.1, w0) hmem hbusy tid3 htid3
      refine ⟨t3, ?_, by rw [hp2]; exact hass3, hst3⟩
      rw [lookupA_requeueFromDead_of_safe _ _ _ _ ?_]
      · exact hlt3
      · intro wid hwid wd hlwd hcur
        obtain ⟨w1, hmem1, hflag⟩ := mem_deadIds hwid
        have hlw1 : lookupA q.workers wid = some w1 :=
          lookupA_eq_of_mem hW.2 hmem1
        have hld : lookupA (reconcileDetect env q.workers).1 wid
            = some ((reconcileWorkerStep env wid w1).1) := by
          rw [lookupA_reconcileDetect, hlw1]
          rfl
        rw [hld] at hlwd
        injection hlwd with hwd
        rw [← hwd] at hcur
        obtain ⟨hb1, hc1⟩ := reconcileWorkerStep_dead_current env wid w1 tid3
          (hNB (wid, w1) hmem1) hcur hflag
        obtain ⟨t4, hlt4, hass4, _⟩ := hBL (wid, w1) hmem1 hb1 tid3 hc1
        rw [hlt3] at hlt4
        injection hlt4 with ht43
        rw [← ht43] at hass4
        rw [hass3] at hass4
        injection hass4 with hww
        have hk0 : w0.worker_id = p.1 := hW.1 (p.1, w0) hmem
        have hk1 : w1.worker_id = wid := hW.1 (wid, w1) hmem1
        have hpw : p.1 = wid := by rw [← hk0, ← hk1, hww]
        have hw01 : w0 = w1 := by
          have h1 : lookupA q.workers p.1 = some w0 :=
            lookupA_eq_of_mem hW.2 hmem
          rw [hpw, hlw1] at h1
          injection h1 with hh
          exact hh.symm
        rcases reconcileWorkerStep_cases env wid w1 with ⟨_, hf⟩ | ⟨hdead1, _⟩
        · rw [hflag] at hf
          cases hf
        · rw [hpw, hw01] at heq
          rw [heq] at hdead1
          rw [hb1] at hdead1
          cases hdead1
    · rw [he, hdead] at hbusy
      cases hbusy

theorem queueWF_applyOp (q : TaskQueue) (op : PoolOp) (h : QueueWF q)
    (hok : OpOK q op) : QueueWF (applyOp q op) := by
  cases op with
  | addTaskOp tid jid ls mp mq mf ep now => exact queueWF_addTask q _ h hok
  | spawnOp wid host pid now => exact queueWF_spawn q wid host pid now h
  | readyOp wid host now => exact queueWF_ready q wid host now h
  | leaseOp wid now => exact queueWF_lease q wid now h
  | doneOp wid tid s v e now => exact queueWF_done q wid tid s v e now h
  | heartbeatOp wid busy now => exact queueWF_heartbeat q wid busy now h
  | cancelOp tid now => exact queueWF_cancel q tid now h
  | killOp wid now => exact queueWF_kill q wid now h
  | reconcileOp env => exact queueWF_reconcile env q h

theorem queueWF_empty : QueueWF emptyQueue := by
  refine ⟨⟨?_, ?_⟩, ⟨?_, ?_⟩, ?_, ?_⟩
  · intro p hp
    cases hp
  · exact List.nodup_nil
  · intro p hp
    cases hp
  · exact List.nodup_nil
  · intro p hp
    cases hp
  · intro p hp
    cases hp

theorem queueWF_reachable (q : TaskQueue) (h : Reachable q) : QueueWF q := by
  induction h with
  | init => exact queueWF_empty
  | step q0 op hr hok ih => exact queueWF_applyOp q0 op ih hok

/-- C4 (amended): after every modelled operation starting from the empty
pool, every BUSY worker whose `current_task_id` is non-null points to an
existing task whose `assigned_worker_id` is the worker and whose status is
ASSIGNED or RUNNING. (A BUSY worker may however carry a null
`current_task_id`, see the counterexample: heartbeat busy-promotion.) -/
theorem c4_busy_linkage_amended (q : TaskQueue) (h : Reachable q) :
    BusyLinkage q :=
  (queueWF_reachable q h).2.2.2

/-- Witness for the amended C4 at the concrete reachable state reached by
ready, task creation and a lease. -/
theorem c4_busy_linkage_amended_witness : BusyLinkage c4wQ3 :=
  c4_busy_linkage_amended c4wQ3
    (Reachable.step c4wQ2 (PoolOp.leaseOp "wA" 2)
      (Reachable.step c4wQ1
        (PoolOp.addTaskOp "tA" "job1" "/Game/Seq.Seq" "" 1 "mp4" [] 1)
        (Reachable.step emptyQueue (PoolOp.readyOp "wA" "10.0.0.1" 0)
          Reachable.init trivial)
        (by show lookupA c4wQ1.tasks "tA" = none; decide))
      trivial)

end OpenCueUE
